import Mathlib

/-!
Shallow embedding of the streaming/windowed moment-estimation core of
`lingvo/core/bn_layers.py` (group normalization).

Tensors are modelled per batch example and per feature group: all the
operations of the source act independently on the (batch, group) slices,
with the time axis carried as a `List`.  A time step of one (example,
group) slice is a pair `(padded?, values within the group)`; machine
floats are modelled as exact rationals.  Helper routines of the
repository that live outside the provided source file
(`py_utils.ApplyPadding`, `py_utils.PaddingsFromLengths`,
`py_utils.LengthsFromPaddings`, `py_utils.ConcatenatePaddedSequences`)
are modelled from the specification's padding-mask contract and marked
as such in their doc comments.
-/

set_option linter.unusedVariables false

namespace BnLayers

/-- Inclusive prefix sums starting from an initial accumulator
(`tf.math.cumsum` continued from `acc`). -/
def cumsumFrom (acc : ℚ) : List ℚ → List ℚ
  | [] => []
  | x :: xs => (acc + x) :: cumsumFrom (acc + x) xs

/-- Inclusive prefix sums, the embedding of `tf.math.cumsum(x, axis=time)`
on one time series. -/
def cumsum (xs : List ℚ) : List ℚ := cumsumFrom 0 xs

/-- Circular shift along the time axis: the embedding of
`tf.roll(x, shift, axis=time)`; output position `i` holds the input
element at position `(i - shift) mod length`. -/
def roll (shift : ℕ) (xs : List ℚ) : List ℚ :=
  (List.range xs.length).map fun i =>
    xs.getD ((i + (xs.length - shift % xs.length)) % xs.length) 0

/-- Modelled from the spec: `py_utils.PaddingsFromLengths` (not part of the
provided source file).  A padding mask over `maxlen` positions whose first
`len` positions are valid (`false`) and the rest padded (`true`). -/
def PaddingsFromLengths (len maxlen : ℕ) : List Bool :=
  (List.range maxlen).map fun i => decide (len ≤ i)

/-- Modelled from the spec: `py_utils.ApplyPadding` (not part of the
provided source file).  Zeroes the entries at padded positions, so that a
padded position's contribution to any reduction is exactly zero. -/
def ApplyPadding (pads : List Bool) (xs : List ℚ) : List ℚ :=
  List.zipWith (fun p x => if p then 0 else x) pads xs

/-- Modelled from the spec: `py_utils.LengthsFromPaddings` (not part of the
provided source file).  The number of valid (non-padded) steps of a
padding mask. -/
def LengthsFromPaddings (pads : List Bool) : ℕ :=
  (pads.filter (fun p => !p)).length

/-- Embedding of `_WindowedCumSum` on one time series: subtract from a
cumulative-sum sequence its copy rolled forward by `windowSize`, with the
rolled copy masked out at positions `< windowSize` (via a
`PaddingsFromLengths` validity mask used multiplicatively) and at padded
positions. -/
def WindowedCumSum (windowSize : ℕ) (pads : List Bool) (x : List ℚ) : List ℚ :=
  let shifted := roll windowSize x
  let shiftMask0 : List ℚ :=
    (PaddingsFromLengths windowSize x.length).map (fun b => if b then 1 else 0)
  let shiftMask := ApplyPadding pads shiftMask0
  List.zipWith (fun xv sv => xv - sv) x (List.zipWith (· * ·) shifted shiftMask)

/-- One time step of one (example, group) slice: the padding flag of that
position and the within-group input values. -/
abbrev Step := Bool × List ℚ

/-- Masked within-group sum of one step (`ApplyPadding` then `reduce_sum`
over the group axis). -/
def stepSum (s : Step) : ℚ := if s.1 then 0 else s.2.sum

/-- Masked validity indicator of one step (the padding mask reduced over
the group axis, whose extent in the mask is 1). -/
def stepCnt (s : Step) : ℚ := if s.1 then 0 else 1

/-- Masked within-group sum of squared deviations of one step from a given
mean (`ApplyPadding` applied to `squared_difference(inputs, mean)` then
`reduce_sum` over the group axis; the mean is broadcast over the group). -/
def stepSq (m : ℚ) (s : Step) : ℚ :=
  if s.1 then 0 else (s.2.map (fun x => (x - m) ^ 2)).sum

/-- The padding mask of a slice. -/
def padsOf (series : List Step) : List Bool := series.map Prod.fst

/-- The windowing stage of `ComputeMoments`: with a requested window size
of 0 (Python falsiness) the cumulative sums pass through unchanged,
otherwise the window is first clamped to the sequence length and the
windowed cumulative sum is taken. -/
def maybeWindow (cumsumWindowSize seqLen : ℕ) (pads : List Bool) (x : List ℚ) : List ℚ :=
  if cumsumWindowSize ≠ 0 then WindowedCumSum (min cumsumWindowSize seqLen) pads x else x

/-- The `sum_v` tensor of `ComputeMoments` with `cumulative_axis=1`:
masked per-step sums, accumulated along time and optionally windowed. -/
def sumVOf (cumsumWindowSize : ℕ) (series : List Step) : List ℚ :=
  maybeWindow cumsumWindowSize series.length (padsOf series) (cumsum (series.map stepSum))

/-- The `count_v` tensor of `ComputeMoments` with `cumulative_axis=1`:
valid-step counts accumulated along time, optionally windowed, rescaled by
the mask multiplier `g` (the group size, the ratio of input extent to mask
extent on the reduced axes) and clamped to at least 1. -/
def cntVOf (g cumsumWindowSize : ℕ) (series : List Step) : List ℚ :=
  ((maybeWindow cumsumWindowSize series.length (padsOf series)
      (cumsum (series.map stepCnt))).map (fun c => c * (g : ℚ))).map
    (fun c => max c 1)

/-- The per-position mean of `ComputeMoments`. -/
def meanOf (g cumsumWindowSize : ℕ) (series : List Step) : List ℚ :=
  List.zipWith (· / ·) (sumVOf cumsumWindowSize series) (cntVOf g cumsumWindowSize series)

/-- The `sum_vv` tensor of `ComputeMoments`: masked per-step sums of
squared deviations from that position's own mean, accumulated along time
and optionally windowed. -/
def sumVVOf (g cumsumWindowSize : ℕ) (series : List Step) : List ℚ :=
  maybeWindow cumsumWindowSize series.length (padsOf series)
    (cumsum (List.zipWith stepSq (meanOf g cumsumWindowSize series) series))

/-- The per-position variance of `ComputeMoments`. -/
def varOf (g cumsumWindowSize : ℕ) (series : List Step) : List ℚ :=
  List.zipWith (· / ·) (sumVVOf g cumsumWindowSize series) (cntVOf g cumsumWindowSize series)

/-- Embedding of `ComputeMoments(inputs, padding, reduce_over_dims,
cumulative_axis=1, keepdims=True, cumsum_window_size)` on one
(example, group) slice, `g` being the group size (the extent of the
reduced axes of the input not present in the mask).  Returns the
per-position (mean, variance) pairs. -/
def ComputeMoments (g cumsumWindowSize : ℕ) (series : List Step) : List (ℚ × ℚ) :=
  (meanOf g cumsumWindowSize series).zip (varOf g cumsumWindowSize series)

/-- Carried state of the unwindowed streaming estimator
(`_StreamMoments`), per (example, group) slice: running sum, running
count (already scaled by the group size) and running sum of squared
deviations. -/
structure SMState where
  cachedSum : ℚ
  cachedCount : ℚ
  cachedVar : ℚ
  deriving Repr, DecidableEq

/-- The `zero_state` of the unwindowed streaming estimator. -/
def smZero : SMState := ⟨0, 0, 0⟩

/-- Embedding of `GroupNormLayer._StreamMoments` on one (example, group)
slice.  The chunk's masked per-step sums and counts are accumulated along
time on top of the carried state; each position's squared deviations are
taken from that position's own cumulative mean; the new state holds the
last accumulated values. -/
def StreamMoments (g : ℕ) (series : List Step) (st : SMState) :
    List (ℚ × ℚ) × SMState :=
  let sumV := (cumsum (series.map stepSum)).map (· + st.cachedSum)
  let cntV := (cumsum (series.map
      (fun s => if s.1 then 0 else (g : ℚ)))).map (· + st.cachedCount)
  let mean := List.zipWith (fun s c => s / max c 1) sumV cntV
  let sumVV := (cumsum (List.zipWith stepSq mean series)).map (· + st.cachedVar)
  let variance := List.zipWith (fun s c => s / max c 1) sumVV cntV
  (mean.zip variance,
   ⟨sumV.getLastD st.cachedSum, cntV.getLastD st.cachedCount,
    sumVV.getLastD st.cachedVar⟩)

/-- Carried state of the windowed streaming estimator
(`_StreamWindowedMoments`), per (example, group) slice: the last
up-to-`window_size` cached per-step cumulative partial sums and cumulative
partial sums of squared deviations, and the number of valid cached
steps. -/
structure SWState where
  cachedSums : List ℚ
  cachedVars : List ℚ
  cachedCount : ℕ
  deriving Repr, DecidableEq

/-- The `zero_state` of the windowed streaming estimator. -/
def swZero (windowSize : ℕ) : SWState :=
  ⟨List.replicate windowSize 0, List.replicate windowSize 0, 0⟩

/-- The batch-size-1 branch of `_TrimFromTheFront`: drop `trimLen` leading
positions and keep the next `outputLen`. -/
def TrimFromTheFrontB1 (x : List ℚ) (trimLen outputLen : ℕ) : List ℚ :=
  (x.drop trimLen).take outputLen

/-- Embedding of `tf.reverse_sequence` on one example: reverse the first
`n` positions, leave the rest in place. -/
def reverseSequence (n : ℕ) (xs : List ℚ) : List ℚ :=
  (xs.take n).reverse ++ xs.drop n

/-- The general-batch branch of `_TrimFromTheFront`: reverse the first
`trimLen + keepLen` positions, zero everything past the first `keepLen`
positions of the reversal, reverse those `keepLen` positions back, and
keep the first `outputLen` positions. -/
def TrimFromTheFront (x : List ℚ) (trimLen keepLen outputLen : ℕ) : List ℚ :=
  let revX := reverseSequence (trimLen + keepLen) x
  let trimPads := PaddingsFromLengths keepLen x.length
  let trimmedRev := ApplyPadding trimPads revX
  let trimmedX := reverseSequence keepLen trimmedRev
  trimmedX.take outputLen

/-- Modelled from the spec: `py_utils.ConcatenatePaddedSequences` (not
part of the provided source file).  Concatenates the valid leading
segments of two padded sequences along time, padding the remainder of the
combined length with zeros / padding marks. -/
def ConcatenatePaddedSequences (xs ys : List ℚ) (px py : List Bool) :
    List ℚ × List Bool :=
  let lx := LengthsFromPaddings px
  let ly := LengthsFromPaddings py
  let total := xs.length + ys.length
  (xs.take lx ++ ys.take ly ++ List.replicate (total - lx - ly) 0,
   px.take lx ++ py.take ly ++ List.replicate (total - lx - ly) true)

/-- The `_GetUpdatedCount` helper of `_StreamWindowedMoments`: cumulative
valid-step counts of the chunk, shifted by the cached count and capped at
the window size. -/
def GetUpdatedCount (windowSize prevCount : ℕ) (pads : List Bool) : List ℚ :=
  (cumsum (pads.map (fun p => if p then 0 else 1))).map
    (fun c => min (c + (prevCount : ℚ)) (windowSize : ℚ))

/-- The batch-size-1 branch of `_ComputeWindowedCumSum` inside
`_StreamWindowedMoments`: mask and sum the chunk steps, accumulate along
time continuing from the last valid cached value, splice the cached valid
steps, the chunk's valid steps and explicit zero padding into a
`windowSize + t` buffer, take the windowed cumulative sum of the splice,
and trim it back to the chunk's positions.  Returns the trimmed windowed
sums together with the spliced buffer and its padding. -/
def ComputeWindowedCumSumB1 (windowSize : ℕ) (series : List Step)
    (pads : List Bool) (cached : List ℚ) (cachedPads : List Bool)
    (cachedCount lastIndex curLen : ℕ) : List ℚ × List ℚ × List Bool :=
  let t := series.length
  let current := cumsum (series.map stepSum)
  let last := cached.getD lastIndex 0
  let current := current.map (· + last)
  let numPadded := windowSize + t - cachedCount - curLen
  let concat := cached.take cachedCount ++ current.take curLen ++
    List.replicate numPadded 0
  let concatPads := cachedPads.take cachedCount ++ pads.take curLen ++
    List.replicate numPadded true
  let windowed := WindowedCumSum windowSize concatPads concat
  (TrimFromTheFrontB1 windowed cachedCount t, concat, concatPads)

/-- The general-batch branch of `_ComputeWindowedCumSum`: as the
batch-size-1 branch but splicing through `ConcatenatePaddedSequences` and
trimming through the reverse-sequence based `_TrimFromTheFront`. -/
def ComputeWindowedCumSumGeneral (windowSize : ℕ) (series : List Step)
    (pads : List Bool) (cached : List ℚ) (cachedPads : List Bool)
    (cachedCount lastIndex curLen : ℕ) : List ℚ × List ℚ × List Bool :=
  let t := series.length
  let current := cumsum (series.map stepSum)
  let last := cached.getD lastIndex 0
  let current := current.map (· + last)
  let (concat, concatPads) := ConcatenatePaddedSequences cached current cachedPads pads
  let windowed := WindowedCumSum windowSize concatPads concat
  (TrimFromTheFront windowed cachedCount curLen t, concat, concatPads)

/-- Embedding of `GroupNormLayer._StreamWindowedMoments` on one
(example, group) slice, along the batch-size-1 fast path. -/
def StreamWindowedMoments (windowSize g : ℕ) (series : List Step)
    (st : SWState) : List (ℚ × ℚ) × SWState :=
  let pads := padsOf series
  let cachedPads := PaddingsFromLengths st.cachedCount windowSize
  let lastIndex := st.cachedCount - 1
  let curLen := LengthsFromPaddings pads
  let r1 := ComputeWindowedCumSumB1 windowSize series pads st.cachedSums
    cachedPads st.cachedCount lastIndex curLen
  let sumV := r1.1
  let concatSumV := r1.2.1
  let concatPads := r1.2.2
  let cntV := GetUpdatedCount windowSize st.cachedCount pads
  let mean := List.zipWith (fun s c => s / max (c * (g : ℚ)) 1) sumV cntV
  let sqSeries := List.zipWith
    (fun (s : Step) m => (s.1, s.2.map (fun x => (x - m) ^ 2))) series mean
  let r2 := ComputeWindowedCumSumB1 windowSize sqSeries pads st.cachedVars
    cachedPads st.cachedCount lastIndex curLen
  let sumVV := r2.1
  let concatSumVV := r2.2.1
  let variance := List.zipWith (fun s c => s / max (c * (g : ℚ)) 1) sumVV cntV
  let inputLen := LengthsFromPaddings concatPads
  let newCount := min inputLen windowSize
  let newSums := TrimFromTheFrontB1 concatSumV (inputLen - newCount) windowSize
  let newVars := TrimFromTheFrontB1 concatSumVV (inputLen - newCount) windowSize
  (mean.zip variance, ⟨newSums, newVars, newCount⟩)

/-- Embedding of `GroupNormLayer._StreamWindowedMoments` on one
(example, group) slice, along the general-batch path
(`reverse_sequence` / `gather_nd` / `ConcatenatePaddedSequences`). -/
def StreamWindowedMomentsGeneral (windowSize g : ℕ) (series : List Step)
    (st : SWState) : List (ℚ × ℚ) × SWState :=
  let pads := padsOf series
  let cachedPads := PaddingsFromLengths st.cachedCount windowSize
  let lastIndex := st.cachedCount - 1
  let curLen := LengthsFromPaddings pads
  let r1 := ComputeWindowedCumSumGeneral windowSize series pads st.cachedSums
    cachedPads st.cachedCount lastIndex curLen
  let sumV := r1.1
  let concatSumV := r1.2.1
  let concatPads := r1.2.2
  let cntV := GetUpdatedCount windowSize st.cachedCount pads
  let mean := List.zipWith (fun s c => s / max (c * (g : ℚ)) 1) sumV cntV
  let sqSeries := List.zipWith
    (fun (s : Step) m => (s.1, s.2.map (fun x => (x - m) ^ 2))) series mean
  let r2 := ComputeWindowedCumSumGeneral windowSize sqSeries pads st.cachedVars
    cachedPads st.cachedCount lastIndex curLen
  let sumVV := r2.1
  let concatSumVV := r2.2.1
  let variance := List.zipWith (fun s c => s / max (c * (g : ℚ)) 1) sumVV cntV
  let inputLen := LengthsFromPaddings concatPads
  let newCount := min inputLen windowSize
  let newSums := TrimFromTheFront concatSumV (inputLen - newCount) newCount windowSize
  let newVars := TrimFromTheFront concatSumVV (inputLen - newCount) newCount windowSize
  (mean.zip variance, ⟨newSums, newVars, newCount⟩)

/-- Feed a sequence of chunks through the unwindowed streaming estimator,
threading the state and concatenating the per-chunk outputs. -/
def streamChunks (g : ℕ) : List (List Step) → SMState → List (ℚ × ℚ) × SMState
  | [], st => ([], st)
  | c :: rest, st =>
    let r := StreamMoments g c st
    let rr := streamChunks g rest r.2
    (r.1 ++ rr.1, rr.2)

/-- Feed a sequence of chunks through the windowed streaming estimator,
threading the state and concatenating the per-chunk outputs. -/
def streamWindowedChunks (windowSize g : ℕ) :
    List (List Step) → SWState → List (ℚ × ℚ) × SWState
  | [], st => ([], st)
  | c :: rest, st =>
    let r := StreamWindowedMoments windowSize g c st
    let rr := streamWindowedChunks windowSize g rest r.2
    (r.1 ++ rr.1, rr.2)

/-- Embedding of the elementwise core of `GroupNormLayer._Normalize`:
subtract the group mean and multiply by the inverse standard deviation
`rsqrt(variance + epsilon)`.  The inverse square root of the compute
engine is abstracted as the function `rsq`. -/
def Normalize (eps : ℚ) (rsq : ℚ → ℚ) (mean variance x : ℚ) : ℚ :=
  (x - mean) * rsq (variance + eps)

/-- Embedding of `GroupNormLayer._Normalize` on the bfloat16 branch: the
inverse square root is computed after casting `variance + epsilon` to
float32 and its result is cast back to the element type; the two casts are
abstracted as `toF32` and `fromF32`. -/
def NormalizeBf16 (eps : ℚ) (rsq toF32 fromF32 : ℚ → ℚ) (mean variance x : ℚ) : ℚ :=
  (x - mean) * fromF32 (rsq (toF32 (variance + eps)))

/-- Embedding of the elementwise core of `GroupNormLayer._ApplyGammaBeta`:
the effective scale is `1 + gamma` for the stored parameter `gamma`. -/
def ApplyGammaBeta (gamma beta y : ℚ) : ℚ := y * (1 + gamma) + beta

/-- The configuration parameters of `GroupNormLayer` that its constructor
checks. -/
structure GNConfig where
  dim : ℕ
  num_groups : ℕ
  min_group_size : ℕ
  cumulative : Bool
  window_size : ℕ
  deriving Repr, DecidableEq

/-- Embedding of the assertions of `GroupNormLayer.__init__`: the
configuration is accepted (construction succeeds) exactly when this
returns `true`. -/
def initAsserts (p : GNConfig) : Bool :=
  (0 < p.num_groups) && (0 < p.min_group_size) && (p.dim % p.min_group_size == 0)
    && (!(p.num_groups ≤ p.dim) || (p.dim % p.num_groups == 0))
    && (!(0 < p.window_size) || (p.cumulative && 1 < p.window_size))

/-- Embedding of the `GroupNormLayer.group_size` property: it first
asserts `min_group_size <= dim` (failing, hence `none`, otherwise) and
then returns `max(dim // num_groups, min_group_size)`. -/
def group_size (p : GNConfig) : Option ℕ :=
  if p.min_group_size ≤ p.dim then
    some (max (p.dim / p.num_groups) p.min_group_size)
  else none

/-- Split a feature vector of extent `n * g` into `n` contiguous groups of
`g` elements: the embedding of `tf.reshape(inputs, [..., num_groups,
group_size])` on the feature axis. -/
def chunkList (g : ℕ) : List ℚ → List (List ℚ)
  | [] => []
  | x :: xs =>
    if h : g = 0 then []
    else (x :: xs).take g :: chunkList g ((x :: xs).drop g)
termination_by l => l.length
decreasing_by
  simp only [List.length_drop, List.length_cons]
  omega

/-- The time series of one group of one example: each step pairs the
example's padding flag with the group's slice of that step's features. -/
def groupSeries (k : ℕ) (pads : List Bool) (expanded : List (List (List ℚ))) :
    List Step :=
  List.zipWith (fun p row => (p, row.getD k [])) pads expanded

/-- Elementwise normalization of the list of groups of one time step,
`k` being the index of the first group: each group's elements are
normalized with that group's broadcast mean and variance. -/
def normGroups (eps : ℚ) (rsq : ℚ → ℚ) (mom : ℕ → ℚ × ℚ) (k : ℕ) :
    List (List ℚ) → List (List ℚ)
  | [] => []
  | grp :: rest =>
    grp.map (fun x => Normalize eps rsq (mom k).1 (mom k).2 x) ::
      normGroups eps rsq mom (k + 1) rest

/-- Elementwise normalization of the grouped time series of one example,
`t` being the index of the first time step. -/
def normRows (eps : ℚ) (rsq : ℚ → ℚ) (mom : ℕ → ℕ → ℚ × ℚ) (t : ℕ) :
    List (List (List ℚ)) → List (List (List ℚ))
  | [] => []
  | row :: rest =>
    normGroups eps rsq (fun k => mom t k) 0 row ::
      normRows eps rsq mom (t + 1) rest

/-- The shared tail of `GroupNormLayer.FProp` and
`GroupNormLayer.StreamStep` on one example: regroup the features, apply
`_Normalize` with the per-(step, group) moments, merge the group axis back
and apply `_ApplyGammaBeta` with the flattened parameters. -/
def normalizeExample (eps : ℚ) (rsq : ℚ → ℚ) (gamma beta : List ℚ) (g : ℕ)
    (mom : ℕ → ℕ → ℚ × ℚ) (ex : List (List ℚ)) : List (List ℚ) :=
  let expanded := ex.map (chunkList g)
  let normalized := normRows eps rsq mom 0 expanded
  let merged := normalized.map List.flatten
  merged.map (fun row =>
    List.zipWith (fun x gb => ApplyGammaBeta gb.1 gb.2 x) row (gamma.zip beta))

/-- The per-(step, group) moments that `GroupNormLayer.FProp` computes for
one example in the cumulative case: `ComputeMoments` with
`cumulative_axis=1` on each group's series. -/
def fpropMoments (wsize g : ℕ) (ex : List (List ℚ)) (pads : List Bool)
    (t k : ℕ) : ℚ × ℚ :=
  (ComputeMoments g wsize (groupSeries k pads (ex.map (chunkList g)))).getD t (0, 0)

/-- Embedding of `GroupNormLayer.FProp` (cumulative mode, rank-3 inputs,
paddings given) on a batch: normalizes every example against its
per-group cumulative moments and returns the paddings alongside. -/
def GroupNormFProp (wsize g : ℕ) (eps : ℚ) (rsq : ℚ → ℚ)
    (gamma beta : List ℚ) (inputs : List (List (List ℚ)))
    (paddings : List (List Bool)) :
    List (List (List ℚ)) × List (List Bool) :=
  (List.zipWith
     (fun ex pads => normalizeExample eps rsq gamma beta g
        (fpropMoments wsize g ex pads) ex)
     inputs paddings,
   paddings)

/-- The per-(step, group) moments and updated per-group states of
`GroupNormLayer.StreamStep` for one example, unwindowed variant. -/
def streamStepMomentsU (g : ℕ) (ex : List (List ℚ)) (pads : List Bool)
    (sts : List SMState) (k : ℕ) : List (ℚ × ℚ) × SMState :=
  StreamMoments g (groupSeries k pads (ex.map (chunkList g))) (sts.getD k smZero)

/-- Embedding of `GroupNormLayer.StreamStep` (unwindowed variant, rank-3
inputs) on a batch: per-example, per-group streaming moments, the shared
normalization tail, the paddings returned unchanged, and the updated
per-group states. -/
def GroupNormStreamStepU (g : ℕ) (eps : ℚ) (rsq : ℚ → ℚ)
    (gamma beta : List ℚ) (inputs : List (List (List ℚ)))
    (paddings : List (List Bool)) (states : List (List SMState)) :
    List (List (List ℚ)) × List (List Bool) × List (List SMState) :=
  (List.zipWith
     (fun exp sts => normalizeExample eps rsq gamma beta g
        (fun t k => ((streamStepMomentsU g exp.1 exp.2 sts k).1).getD t (0, 0)) exp.1)
     (inputs.zip paddings) states,
   paddings,
   List.zipWith
     (fun exp sts => (List.range sts.length).map
        (fun k => (streamStepMomentsU g exp.1 exp.2 sts k).2))
     (inputs.zip paddings) states)

/-- The per-(step, group) moments and updated per-group states of
`GroupNormLayer.StreamStep` for one example, windowed variant. -/
def streamStepMomentsW (wsize g : ℕ) (ex : List (List ℚ)) (pads : List Bool)
    (sts : List SWState) (k : ℕ) : List (ℚ × ℚ) × SWState :=
  StreamWindowedMoments wsize g (groupSeries k pads (ex.map (chunkList g)))
    (sts.getD k (swZero wsize))

/-- Embedding of `GroupNormLayer.StreamStep` (windowed variant, rank-3
inputs) on a batch. -/
def GroupNormStreamStepW (wsize g : ℕ) (eps : ℚ) (rsq : ℚ → ℚ)
    (gamma beta : List ℚ) (inputs : List (List (List ℚ)))
    (paddings : List (List Bool)) (states : List (List SWState)) :
    List (List (List ℚ)) × List (List Bool) × List (List SWState) :=
  (List.zipWith
     (fun exp sts => normalizeExample eps rsq gamma beta g
        (fun t k => ((streamStepMomentsW wsize g exp.1 exp.2 sts k).1).getD t (0, 0)) exp.1)
     (inputs.zip paddings) states,
   paddings,
   List.zipWith
     (fun exp sts => (List.range sts.length).map
        (fun k => (streamStepMomentsW wsize g exp.1 exp.2 sts k).2))
     (inputs.zip paddings) states)

/-- The shape of a rank-3 batch: per example, the per-step feature
extents. -/
def shape3 (x : List (List (List ℚ))) : List (List ℕ) :=
  x.map (fun ex => ex.map List.length)

/-- The step of a slice at one position (the all-zero valid step beyond
the end). -/
def stepAt (series : List Step) (u : ℕ) : Step := series.getD u (false, [])

/-- Cumulative masked sum of a slice through position `u`. -/
def cumS (series : List Step) (u : ℕ) : ℚ :=
  ((series.take (u + 1)).map stepSum).sum

/-- Cumulative valid-step count of a slice through position `u`. -/
def cumC (series : List Step) (u : ℕ) : ℚ :=
  ((series.take (u + 1)).map stepCnt).sum

/-- The effective window of `ComputeMoments`: the requested window clamped
to the sequence length. -/
def effW (W0 T : ℕ) : ℕ := min W0 T

/-- The subtrahend of the windowed cumulative sum at position `t`:
the cumulative value one window earlier, when windowing is on, the window
fits and the position is not padded. -/
def subQ (W0 : ℕ) (series : List Step) (f : ℕ → ℚ) (t : ℕ) : ℚ :=
  if W0 ≠ 0 ∧ effW W0 series.length ≤ t ∧ (stepAt series t).1 = false then
    f (t - effW W0 series.length)
  else 0

/-- The (optionally windowed) cumulative sum of `ComputeMoments` at one
position. -/
def bSum (W0 : ℕ) (series : List Step) (t : ℕ) : ℚ :=
  cumS series t - subQ W0 series (cumS series) t

/-- The clamped (optionally windowed) count of `ComputeMoments` at one
position. -/
def bCnt (g W0 : ℕ) (series : List Step) (t : ℕ) : ℚ :=
  max ((cumC series t - subQ W0 series (cumC series) t) * (g : ℚ)) 1

/-- The mean of `ComputeMoments` at one position. -/
def bMean (g W0 : ℕ) (series : List Step) (t : ℕ) : ℚ :=
  bSum W0 series t / bCnt g W0 series t

/-- The masked squared-deviation statistic of one position, taken against
that position's own mean. -/
def qAt (g W0 : ℕ) (series : List Step) (u : ℕ) : ℚ :=
  stepSq (bMean g W0 series u) (stepAt series u)

/-- Cumulative squared-deviation statistic through position `u`. -/
def qcum (g W0 : ℕ) (series : List Step) (u : ℕ) : ℚ :=
  ((List.range (u + 1)).map (qAt g W0 series)).sum

/-- The variance of `ComputeMoments` at one position. -/
def bVar (g W0 : ℕ) (series : List Step) (t : ℕ) : ℚ :=
  (qcum g W0 series t - subQ W0 series (qcum g W0 series) t) / bCnt g W0 series t

/-- Masked prefix sum of the first `pos` steps. -/
def prefixSum (S : List Step) (pos : ℕ) : ℚ := ((S.take pos).map stepSum).sum

/-- Masked prefix count of the first `pos` steps, scaled by the group
size as the unwindowed streaming estimator accumulates it. -/
def prefixCnt (g : ℕ) (S : List Step) (pos : ℕ) : ℚ :=
  ((S.take pos).map (fun s => if s.1 then (0 : ℚ) else (g : ℚ))).sum

/-- Prefix sum of the squared-deviation statistics of the first `pos`
steps (deviations taken from each position's own cumulative mean). -/
def prefixQ (g : ℕ) (S : List Step) (pos : ℕ) : ℚ :=
  ((List.range pos).map (qAt g 0 S)).sum

/-- The carried state of the unwindowed streaming estimator after the
first `pos` steps of `S` have been fed through it. -/
def prefixState (g : ℕ) (S : List Step) (pos : ℕ) : SMState :=
  ⟨prefixSum S pos, prefixCnt g S pos, prefixQ g S pos⟩

/-- The masked step sum of a slice at one position, as a function. -/
def sAt (S : List Step) (u : ℕ) : ℚ := stepSum (stepAt S u)

/-- The cumulative sum of a per-position statistic through position
`x`. -/
def cumRange (φ : ℕ → ℚ) (x : ℕ) : ℚ := ((List.range (x + 1)).map φ).sum

/-- The number of valid steps of a slice. -/
def validLen (S : List Step) : ℕ := LengthsFromPaddings (padsOf S)

/-- A slice whose padding marks only a trailing suffix: its padding mask
is in the canonical lengths form. -/
def SuffixPadded (S : List Step) : Prop :=
  padsOf S = PaddingsFromLengths (validLen S) S.length

/-- The number of valid steps among the first `pos` positions of a
suffix-padded slice. -/
def vPos (S : List Step) (pos : ℕ) : ℕ := min pos (validLen S)

/-- The cached-step count of the windowed streaming state after the first
`pos` positions. -/
def wCnt (W : ℕ) (S : List Step) (pos : ℕ) : ℕ := min (vPos S pos) W

/-- The carried state of the windowed streaming estimator after the first
`pos` steps of a suffix-padded slice: the cumulative step sums (and
squared-deviation sums) at the last `wCnt` valid positions, zero-padded
to the window size. -/
def wPrefixState (g W : ℕ) (S : List Step) (pos : ℕ) : SWState :=
  ⟨(List.range W).map (fun j =>
      if j < wCnt W S pos then cumRange (sAt S) (vPos S pos - wCnt W S pos + j) else 0),
   (List.range W).map (fun j =>
      if j < wCnt W S pos then cumRange (qAt g W S) (vPos S pos - wCnt W S pos + j) else 0),
   wCnt W S pos⟩

/-! ### Basic lemmas about the list primitives -/

theorem length_cumsumFrom (a : ℚ) (xs : List ℚ) :
    (cumsumFrom a xs).length = xs.length := by
  induction xs generalizing a with
  | nil => rfl
  | cons x t ih => simpa [cumsumFrom] using ih (a + x)

theorem length_cumsum (xs : List ℚ) : (cumsum xs).length = xs.length :=
  length_cumsumFrom 0 xs

theorem getD_cumsumFrom (a : ℚ) (xs : List ℚ) (i : ℕ) (hi : i < xs.length) :
    (cumsumFrom a xs).getD i 0 = a + (xs.take (i + 1)).sum := by
  induction xs generalizing a i with
  | nil => simp at hi
  | cons x t ih =>
    cases i with
    | zero => simp [cumsumFrom]
    | succ j =>
      have hj : j < t.length := by simpa using hi
      have := ih (a + x) j hj
      simp only [cumsumFrom, List.getD_cons_succ, this, List.take_succ_cons,
        List.sum_cons]
      ring

theorem getD_cumsum (xs : List ℚ) (i : ℕ) (hi : i < xs.length) :
    (cumsum xs).getD i 0 = (xs.take (i + 1)).sum := by
  simpa using getD_cumsumFrom 0 xs i hi

theorem getLastD_cumsumFrom (a : ℚ) (xs : List ℚ) (d : ℚ) (hxs : xs ≠ []) :
    (cumsumFrom a xs).getLastD d = a + xs.sum := by
  induction xs generalizing a d with
  | nil => exact absurd rfl hxs
  | cons x t ih =>
    cases t with
    | nil => simp [cumsumFrom]
    | cons y u =>
      have := ih (a + x) (a + x) (by simp)
      simp only [cumsumFrom] at this ⊢
      rw [List.getLastD_cons, this]
      simp
      ring

theorem length_roll (s : ℕ) (xs : List ℚ) : (roll s xs).length = xs.length := by
  simp [roll]

theorem length_PaddingsFromLengths (len maxlen : ℕ) :
    (PaddingsFromLengths len maxlen).length = maxlen := by
  simp [PaddingsFromLengths]

theorem getD_PaddingsFromLengths (len maxlen i : ℕ) (hi : i < maxlen) :
    (PaddingsFromLengths len maxlen).getD i false = decide (len ≤ i) := by
  rw [List.getD_eq_getElem _ _ (by simpa [PaddingsFromLengths] using hi)]
  simp [PaddingsFromLengths]

theorem length_ApplyPadding (pads : List Bool) (xs : List ℚ) :
    (ApplyPadding pads xs).length = min pads.length xs.length := by
  simp [ApplyPadding]

theorem getD_ApplyPadding (pads : List Bool) (xs : List ℚ) (i : ℕ)
    (hp : i < pads.length) (hx : i < xs.length) :
    (ApplyPadding pads xs).getD i 0 =
      if pads.getD i false then 0 else xs.getD i 0 := by
  rw [List.getD_eq_getElem _ _ (by simp [ApplyPadding]; omega),
    List.getD_eq_getElem _ _ hp, List.getD_eq_getElem _ _ hx]
  simp [ApplyPadding]

theorem LengthsFromPaddings_le (pads : List Bool) :
    LengthsFromPaddings pads ≤ pads.length :=
  List.length_filter_le _ _

theorem LengthsFromPaddings_PaddingsFromLengths (len maxlen : ℕ) :
    LengthsFromPaddings (PaddingsFromLengths len maxlen) = min len maxlen := by
  induction maxlen with
  | zero => simp [LengthsFromPaddings, PaddingsFromLengths]
  | succ n ih =>
    simp only [LengthsFromPaddings, PaddingsFromLengths] at ih ⊢
    rw [List.range_succ, List.map_append, List.filter_append]
    simp only [List.length_append, ih]
    by_cases h : len ≤ n
    · simp [h]; omega
    · simp [h]; omega

theorem getD_roll (s : ℕ) (xs : List ℚ) (i : ℕ) (hi : i < xs.length) :
    (roll s xs).getD i 0 =
      xs.getD ((i + (xs.length - s % xs.length)) % xs.length) 0 := by
  rw [List.getD_eq_getElem _ _ (by simpa [length_roll] using hi)]
  simp [roll]

theorem getD_roll_of_le (s : ℕ) (xs : List ℚ) (i : ℕ) (hs : s ≤ i)
    (hi : i < xs.length) :
    (roll s xs).getD i 0 = xs.getD (i - s) 0 := by
  rw [getD_roll s xs i hi]
  congr 1
  have hT : 0 < xs.length := lt_of_le_of_lt (Nat.zero_le i) hi
  have hsT : s % xs.length = s := Nat.mod_eq_of_lt (lt_of_le_of_lt hs hi)
  rw [hsT]
  have h1 : i + (xs.length - s) = xs.length + (i - s) := by omega
  rw [h1, Nat.add_mod_left, Nat.mod_eq_of_lt (by omega)]

theorem length_WindowedCumSum (W : ℕ) (pads : List Bool) (x : List ℚ)
    (h : pads.length = x.length) :
    (WindowedCumSum W pads x).length = x.length := by
  simp [WindowedCumSum, length_roll, length_ApplyPadding,
    length_PaddingsFromLengths, h]

theorem roll_index_eq (W i T : ℕ) (hW : W ≤ i) (hi : i < T) :
    (i + (T - W % T)) % T = i - W := by
  have hWT : W % T = W := Nat.mod_eq_of_lt (lt_of_le_of_lt hW hi)
  rw [hWT]
  have h1 : i + (T - W) = T + (i - W) := by omega
  rw [h1, Nat.add_mod_left, Nat.mod_eq_of_lt (by omega)]

theorem getD_WindowedCumSum (W : ℕ) (pads : List Bool) (x : List ℚ) (i : ℕ)
    (h : pads.length = x.length) (hi : i < x.length) :
    (WindowedCumSum W pads x).getD i 0 =
      x.getD i 0 -
        (if W ≤ i ∧ pads.getD i false = false then x.getD (i - W) 0 else 0) := by
  have hlen := length_WindowedCumSum W pads x h
  rw [List.getD_eq_getElem _ _ (by rw [hlen]; exact hi)]
  simp only [WindowedCumSum, ApplyPadding, PaddingsFromLengths, roll,
    List.getElem_zipWith, List.getElem_map, List.getElem_range]
  rw [← List.getD_eq_getElem x 0 hi]
  have hpi : ∀ hb : i < pads.length, pads[i] = pads.getD i false :=
    fun hb => (List.getD_eq_getElem pads false hb).symm
  rw [hpi (by rw [h]; exact hi)]
  by_cases hW : W ≤ i
  · rw [roll_index_eq W i x.length hW hi]
    by_cases hp : pads.getD i false
    · simp only [List.getD, List.get?_eq_getElem?] at hp ⊢
      simp [hp, hW]
    · simp only [List.getD, List.get?_eq_getElem?] at hp ⊢
      simp [hp, hW]
  · by_cases hp : pads.getD i false
    · simp only [List.getD, List.get?_eq_getElem?] at hp ⊢
      simp [hp, hW]
    · simp only [List.getD, List.get?_eq_getElem?] at hp ⊢
      simp [hp, hW]

theorem length_maybeWindow (W0 seqLen : ℕ) (pads : List Bool) (x : List ℚ)
    (h : pads.length = x.length) :
    (maybeWindow W0 seqLen pads x).length = x.length := by
  unfold maybeWindow
  split
  · exact length_WindowedCumSum _ pads x h
  · rfl

theorem getD_maybeWindow (W0 seqLen : ℕ) (pads : List Bool) (x : List ℚ)
    (i : ℕ) (h : pads.length = x.length) (hi : i < x.length) :
    (maybeWindow W0 seqLen pads x).getD i 0 =
      x.getD i 0 -
        (if W0 ≠ 0 ∧ min W0 seqLen ≤ i ∧ pads.getD i false = false then
          x.getD (i - min W0 seqLen) 0 else 0) := by
  unfold maybeWindow
  by_cases h0 : W0 ≠ 0
  · rw [if_pos h0, getD_WindowedCumSum _ pads x i h hi]
    by_cases hc : min W0 seqLen ≤ i ∧ pads.getD i false = false
    · rw [if_pos hc, if_pos ⟨h0, hc.1, hc.2⟩]
    · rw [if_neg hc, if_neg (fun hx => hc ⟨hx.2.1, hx.2.2⟩)]
  · rw [if_neg h0, if_neg (fun hx => h0 hx.1), sub_zero]

/-! ### Closed forms for the batch estimator

The following specification functions give the value of each
`ComputeMoments` intermediate at one position, in terms of prefix sums of
the step statistics.  They are related to the list-level definitions by
the `getD` lemmas below and carry all subsequent reasoning. -/

theorem length_padsOf (series : List Step) : (padsOf series).length = series.length := by
  simp [padsOf]

theorem getD_padsOf (series : List Step) (t : ℕ) (ht : t < series.length) :
    (padsOf series).getD t false = (stepAt series t).1 := by
  rw [List.getD_eq_getElem _ _ (by simpa [length_padsOf] using ht)]
  rw [stepAt, List.getD_eq_getElem _ _ ht]
  simp [padsOf]

theorem sum_take_map_eq_range (f : Step → ℚ) (series : List Step) (n : ℕ)
    (hn : n ≤ series.length) :
    ((series.take n).map f).sum =
      ((List.range n).map (fun u => f (stepAt series u))).sum := by
  induction n with
  | zero => simp
  | succ k ih =>
    have hkl : k < series.length := hn
    rw [List.range_succ, List.map_append, List.sum_append,
      ← ih (Nat.le_of_succ_le hn)]
    rw [List.map_take, List.sum_take_succ _ k (by simpa using hkl),
      ← List.map_take]
    have hv : (List.map f series).getD k (f (false, [])) = f (stepAt series k) := by
      rw [List.getD_eq_getElem _ _ (by simpa using hkl), List.getElem_map,
        stepAt, List.getD_eq_getElem _ _ hkl]
    rw [← List.getD_eq_getElem _ (f (false, [])) (by simpa using hkl), hv]
    simp

theorem length_sumVOf (W0 : ℕ) (series : List Step) :
    (sumVOf W0 series).length = series.length := by
  rw [sumVOf, length_maybeWindow _ _ _ _ (by simp [length_padsOf, length_cumsum]),
    length_cumsum, List.length_map]

theorem getD_sumVOf (W0 : ℕ) (series : List Step) (t : ℕ)
    (ht : t < series.length) :
    (sumVOf W0 series).getD t 0 = bSum W0 series t := by
  have hx : (cumsum (series.map stepSum)).length = series.length := by
    rw [length_cumsum, List.length_map]
  have hcs : ∀ u, u < series.length →
      (cumsum (series.map stepSum)).getD u 0 = cumS series u := by
    intro u hu
    rw [getD_cumsum _ u (by rwa [List.length_map]), ← List.map_take, cumS]
  rw [sumVOf, getD_maybeWindow _ _ _ _ t (by simp [length_padsOf, hx]) (by rwa [hx]),
    hcs t ht, bSum, subQ, getD_padsOf series t ht, effW]
  by_cases hc : W0 ≠ 0 ∧ min W0 series.length ≤ t ∧ (stepAt series t).1 = false
  · rw [if_pos ⟨hc.1, hc.2.1, hc.2.2⟩, if_pos hc, hcs _ (by omega)]
  · rw [if_neg hc, if_neg hc]

theorem length_cntVOf (g W0 : ℕ) (series : List Step) :
    (cntVOf g W0 series).length = series.length := by
  rw [cntVOf, List.length_map, List.length_map,
    length_maybeWindow _ _ _ _ (by simp [length_padsOf, length_cumsum]),
    length_cumsum, List.length_map]

theorem getD_cntVOf (g W0 : ℕ) (series : List Step) (t : ℕ)
    (ht : t < series.length) :
    (cntVOf g W0 series).getD t 0 = bCnt g W0 series t := by
  have hx : (cumsum (series.map stepCnt)).length = series.length := by
    rw [length_cumsum, List.length_map]
  have hcs : ∀ u, u < series.length →
      (cumsum (series.map stepCnt)).getD u 0 = cumC series u := by
    intro u hu
    rw [getD_cumsum _ u (by rwa [List.length_map]), ← List.map_take, cumC]
  have hmw : (maybeWindow W0 series.length (padsOf series)
      (cumsum (series.map stepCnt))).length = series.length := by
    rw [length_maybeWindow _ _ _ _ (by simp [length_padsOf, hx]), hx]
  rw [cntVOf]
  rw [List.getD_eq_getElem _ _ (by rw [List.length_map, List.length_map, hmw]; exact ht),
    List.getElem_map, List.getElem_map, ← List.getD_eq_getElem _ 0 (by rwa [hmw])]
  rw [getD_maybeWindow _ _ _ _ t (by simp [length_padsOf, hx]) (by rwa [hx]),
    hcs t ht, bCnt, subQ, getD_padsOf series t ht, effW]
  by_cases hc : W0 ≠ 0 ∧ min W0 series.length ≤ t ∧ (stepAt series t).1 = false
  · rw [if_pos hc, if_pos hc, hcs _ (by omega)]
  · rw [if_neg hc, if_neg hc]

theorem length_meanOf (g W0 : ℕ) (series : List Step) :
    (meanOf g W0 series).length = series.length := by
  rw [meanOf, List.length_zipWith, length_sumVOf, length_cntVOf, min_self]

theorem getD_meanOf (g W0 : ℕ) (series : List Step) (t : ℕ)
    (ht : t < series.length) :
    (meanOf g W0 series).getD t 0 = bMean g W0 series t := by
  rw [meanOf]
  rw [List.getD_eq_getElem _ _ (by
    rw [List.length_zipWith, length_sumVOf, length_cntVOf, min_self]; exact ht)]
  rw [List.getElem_zipWith,
    ← List.getD_eq_getElem _ 0 (by rw [length_sumVOf]; exact ht),
    ← List.getD_eq_getElem _ 0 (by rw [length_cntVOf]; exact ht),
    getD_sumVOf _ _ _ ht, getD_cntVOf _ _ _ _ ht, bMean]

theorem length_sumVVOf (g W0 : ℕ) (series : List Step) :
    (sumVVOf g W0 series).length = series.length := by
  rw [sumVVOf, length_maybeWindow _ _ _ _ (by
      simp [length_padsOf, length_cumsum, length_meanOf]),
    length_cumsum, List.length_zipWith, length_meanOf, min_self]

theorem getD_sumVVOf (g W0 : ℕ) (series : List Step) (t : ℕ)
    (ht : t < series.length) :
    (sumVVOf g W0 series).getD t 0 =
      qcum g W0 series t - subQ W0 series (qcum g W0 series) t := by
  have hzl : (List.zipWith stepSq (meanOf g W0 series) series).length
      = series.length := by
    rw [List.length_zipWith, length_meanOf, min_self]
  have hx : (cumsum (List.zipWith stepSq (meanOf g W0 series) series)).length
      = series.length := by rw [length_cumsum, hzl]
  have hcs : ∀ u, u < series.length →
      (cumsum (List.zipWith stepSq (meanOf g W0 series) series)).getD u 0
        = qcum g W0 series u := by
    intro u hu
    rw [getD_cumsum _ u (by rwa [hzl]), qcum]
    have hsum : ∀ n, n ≤ series.length →
        ((List.zipWith stepSq (meanOf g W0 series) series).take n).sum =
          ((List.range n).map (qAt g W0 series)).sum := by
      intro n hn
      induction n with
      | zero => simp
      | succ k ih =>
        have hk : k < series.length := hn
        rw [List.range_succ, List.map_append, List.sum_append,
          ← ih (Nat.le_of_succ_le hn),
          List.sum_take_succ _ k (by rwa [hzl])]
        have : (List.zipWith stepSq (meanOf g W0 series) series).getD k 0
            = qAt g W0 series k := by
          rw [List.getD_eq_getElem _ _ (by rwa [hzl]), List.getElem_zipWith]
          rw [← List.getD_eq_getElem _ 0 (by rw [length_meanOf]; exact hk),
            ← List.getD_eq_getElem _ (false, []) hk,
            getD_meanOf _ _ _ _ hk]
          rfl
        rw [← List.getD_eq_getElem _ 0 (by rwa [hzl]), this]
        simp
    exact hsum (u + 1) (by omega)
  rw [sumVVOf, getD_maybeWindow _ _ _ _ t (by simp [length_padsOf, hx]) (by rwa [hx]),
    hcs t ht, subQ, getD_padsOf series t ht, effW]
  by_cases hc : W0 ≠ 0 ∧ min W0 series.length ≤ t ∧ (stepAt series t).1 = false
  · rw [if_pos hc, if_pos hc, hcs _ (by omega)]
  · rw [if_neg hc, if_neg hc]

theorem length_varOf (g W0 : ℕ) (series : List Step) :
    (varOf g W0 series).length = series.length := by
  rw [varOf, List.length_zipWith, length_sumVVOf, length_cntVOf, min_self]

theorem getD_varOf (g W0 : ℕ) (series : List Step) (t : ℕ)
    (ht : t < series.length) :
    (varOf g W0 series).getD t 0 = bVar g W0 series t := by
  rw [varOf]
  rw [List.getD_eq_getElem _ _ (by
    rw [List.length_zipWith, length_sumVVOf, length_cntVOf, min_self]; exact ht)]
  rw [List.getElem_zipWith,
    ← List.getD_eq_getElem _ 0 (by rw [length_sumVVOf]; exact ht),
    ← List.getD_eq_getElem _ 0 (by rw [length_cntVOf]; exact ht),
    getD_sumVVOf _ _ _ _ ht, getD_cntVOf _ _ _ _ ht, bVar]

theorem length_ComputeMoments (g W0 : ℕ) (series : List Step) :
    (ComputeMoments g W0 series).length = series.length := by
  rw [ComputeMoments, List.length_zip, length_meanOf, length_varOf, min_self]

theorem getD_ComputeMoments (g W0 : ℕ) (series : List Step) (t : ℕ)
    (ht : t < series.length) :
    (ComputeMoments g W0 series).getD t (0, 0) =
      (bMean g W0 series t, bVar g W0 series t) := by
  rw [ComputeMoments]
  rw [List.getD_eq_getElem _ _ (by
    rw [List.length_zip, length_meanOf, length_varOf, min_self]; exact ht)]
  rw [List.getElem_zip,
    ← List.getD_eq_getElem _ 0 (by rw [length_meanOf]; exact ht),
    ← List.getD_eq_getElem _ 0 (by rw [length_varOf]; exact ht),
    getD_meanOf _ _ _ _ ht, getD_varOf _ _ _ _ ht]

/-! ### Noninterference of padded values -/

theorem cum_stat_congr (f : Step → ℚ) (S S' : List Step)
    (hlen : S'.length = S.length)
    (hstep : ∀ u, u < S.length → f (stepAt S u) = f (stepAt S' u))
    (u : ℕ) (hu : u < S.length) :
    ((S.take (u + 1)).map f).sum = ((S'.take (u + 1)).map f).sum := by
  rw [sum_take_map_eq_range f S _ (by omega),
    sum_take_map_eq_range f S' _ (by omega)]
  congr 1
  apply List.map_congr_left
  intro a ha
  exact hstep a (by have := List.mem_range.mp ha; omega)

theorem moments_noninterference (g W0 : ℕ) (S S' : List Step)
    (hlen : S'.length = S.length)
    (hpads : ∀ t, t < S.length → (stepAt S t).1 = (stepAt S' t).1)
    (hvals : ∀ t, t < S.length → (stepAt S t).1 = false → stepAt S t = stepAt S' t) :
    ComputeMoments g W0 S = ComputeMoments g W0 S' := by
  have hsum : ∀ u, u < S.length → stepSum (stepAt S u) = stepSum (stepAt S' u) := by
    intro u hu
    by_cases hp : (stepAt S u).1 = false
    · rw [hvals u hu hp]
    · have hp' : (stepAt S u).1 = true := by
        cases h : (stepAt S u).1 with
        | false => exact absurd h hp
        | true => rfl
      have hp2 : (stepAt S' u).1 = true := by rw [← hpads u hu]; exact hp'
      rw [stepSum, stepSum, hp', hp2]
      rfl
    -- both masked contributions are zero at padded positions
  have hcnt : ∀ u, u < S.length → stepCnt (stepAt S u) = stepCnt (stepAt S' u) := by
    intro u hu
    rw [stepCnt, stepCnt, hpads u hu]
  have hcumS : ∀ u, u < S.length → cumS S u = cumS S' u := fun u hu =>
    cum_stat_congr stepSum S S' hlen hsum u hu
  have hcumC : ∀ u, u < S.length → cumC S u = cumC S' u := fun u hu =>
    cum_stat_congr stepCnt S S' hlen hcnt u hu
  have hsub : ∀ (f f' : ℕ → ℚ), (∀ u, u < S.length → f u = f' u) →
      ∀ t, t < S.length → subQ W0 S f t = subQ W0 S' f' t := by
    intro f f' hf t ht
    rw [subQ, subQ, hlen, hpads t ht]
    by_cases hc : W0 ≠ 0 ∧ effW W0 S.length ≤ t ∧ (stepAt S' t).1 = false
    · rw [if_pos hc, if_pos hc, hf _ (by have := hc.2.1; rw [effW] at this; omega)]
    · rw [if_neg hc, if_neg hc]
  have hbSum : ∀ t, t < S.length → bSum W0 S t = bSum W0 S' t := by
    intro t ht
    rw [bSum, bSum, hcumS t ht, hsub (cumS S) (cumS S') hcumS t ht]
  have hbCnt : ∀ t, t < S.length → bCnt g W0 S t = bCnt g W0 S' t := by
    intro t ht
    rw [bCnt, bCnt, hcumC t ht, hsub (cumC S) (cumC S') hcumC t ht]
  have hbMean : ∀ t, t < S.length → bMean g W0 S t = bMean g W0 S' t := by
    intro t ht
    rw [bMean, bMean, hbSum t ht, hbCnt t ht]
  have hq : ∀ u, u < S.length → qAt g W0 S u = qAt g W0 S' u := by
    intro u hu
    by_cases hp : (stepAt S u).1 = false
    · rw [qAt, qAt, hvals u hu hp, hbMean u hu]
    · have hp' : (stepAt S u).1 = true := by
        cases h : (stepAt S u).1 with
        | false => exact absurd h hp
        | true => rfl
      have hp2 : (stepAt S' u).1 = true := by rw [← hpads u hu]; exact hp'
      rw [qAt, qAt, stepSq, stepSq, hp', hp2]
      rfl
  have hqcum : ∀ u, u < S.length → qcum g W0 S u = qcum g W0 S' u := by
    intro u hu
    rw [qcum, qcum]
    congr 1
    apply List.map_congr_left
    intro a ha
    exact hq a (by have := List.mem_range.mp ha; omega)
  have hbVar : ∀ t, t < S.length → bVar g W0 S t = bVar g W0 S' t := by
    intro t ht
    rw [bVar, bVar, hqcum t ht,
      hsub (qcum g W0 S) (qcum g W0 S') hqcum t ht, hbCnt t ht]
  apply List.ext_getElem
  · rw [length_ComputeMoments, length_ComputeMoments, hlen]
  · intro n h1 h2
    have hn : n < S.length := by rwa [length_ComputeMoments] at h1
    rw [← List.getD_eq_getElem _ (0, 0) h1, ← List.getD_eq_getElem _ (0, 0) h2,
      getD_ComputeMoments _ _ _ _ hn, getD_ComputeMoments _ _ _ _ (by omega),
      hbMean n hn, hbVar n hn]

/-! ### The unwindowed streaming estimator against the batch estimator -/

theorem map_add_cumsumFrom (l : List ℚ) (a b : ℚ) :
    (cumsumFrom b l).map (· + a) = cumsumFrom (b + a) l := by
  induction l generalizing b with
  | nil => rfl
  | cons x t ih =>
    simp only [cumsumFrom, List.map_cons, ih (b + x)]
    have h1 : b + x + a = b + a + x := by ring
    rw [h1]

theorem getD_cumsum_add (A : ℚ) (l : List ℚ) (i : ℕ) (hi : i < l.length) :
    ((cumsum l).map (· + A)).getD i 0 = A + (l.take (i + 1)).sum := by
  rw [cumsum, map_add_cumsumFrom, zero_add, getD_cumsumFrom A l i hi]

theorem sum_take_getD (l : List ℚ) (n : ℕ) (hn : n ≤ l.length) :
    (l.take n).sum = ((List.range n).map (fun u => l.getD u 0)).sum := by
  induction n with
  | zero => simp
  | succ k ih =>
    have hk : k < l.length := hn
    rw [List.range_succ, List.map_append, List.sum_append,
      ← ih (Nat.le_of_succ_le hn), List.sum_take_succ _ k hk]
    simp [List.getElem?_eq_getElem hk]

theorem subQ_zero (S : List Step) (f : ℕ → ℚ) (t : ℕ) : subQ 0 S f t = 0 := by
  simp [subQ]

theorem bSum_zero (S : List Step) (t : ℕ) : bSum 0 S t = cumS S t := by
  rw [bSum, subQ_zero, sub_zero]

theorem bCnt_zero (g : ℕ) (S : List Step) (t : ℕ) :
    bCnt g 0 S t = max (cumC S t * (g : ℚ)) 1 := by
  rw [bCnt, subQ_zero, sub_zero]

theorem chunk_take (S c : List Step) (pos : ℕ)
    (hc : c = (S.drop pos).take c.length) (j : ℕ) (hj : j ≤ c.length) :
    c.take j = (S.drop pos).take j := by
  conv_lhs => rw [hc]
  rw [List.take_take, min_eq_left hj]

theorem chunk_stepAt (S c : List Step) (pos : ℕ)
    (hc : c = (S.drop pos).take c.length) (hlen : pos + c.length ≤ S.length)
    (i : ℕ) (hi : i < c.length) : stepAt c i = stepAt S (pos + i) := by
  have hiS : pos + i < S.length := by omega
  rw [stepAt, stepAt]
  conv_lhs => rw [hc]
  rw [List.getD_eq_getElem _ _ (by rw [← hc]; exact hi),
    List.getD_eq_getElem _ _ hiS, List.getElem_take, List.getElem_drop]

theorem prefix_chunk_sum (f : Step → ℚ) (S c : List Step) (pos : ℕ)
    (hc : c = (S.drop pos).take c.length) (i : ℕ) (hi : i ≤ c.length) :
    ((S.take (pos + i)).map f).sum =
      ((S.take pos).map f).sum + ((c.take i).map f).sum := by
  rw [List.take_add, List.map_append, List.sum_append,
    chunk_take S c pos hc i hi]

theorem prefixCnt_eq_mul (g : ℕ) (S : List Step) (m : ℕ) :
    prefixCnt g S m = ((S.take m).map stepCnt).sum * (g : ℚ) := by
  rw [prefixCnt, ← List.sum_map_mul_right]
  congr 1
  apply List.map_congr_left
  intro s hs
  rw [stepCnt]
  by_cases h : s.1 <;> simp [h]

theorem StreamMoments_spec (g : ℕ) (S : List Step) (pos : ℕ) (c : List Step)
    (hc : c = (S.drop pos).take c.length) (hlen : pos + c.length ≤ S.length) :
    (StreamMoments g c (prefixState g S pos)).1
        = ((ComputeMoments g 0 S).drop pos).take c.length
      ∧ (StreamMoments g c (prefixState g S pos)).2
        = prefixState g S (pos + c.length) := by
  have hstep := chunk_stepAt S c pos hc hlen
  -- the accumulated sums of the chunk continue the prefix statistics
  have hsumV : ∀ i, i < c.length →
      ((cumsum (c.map stepSum)).map (· + prefixSum S pos)).getD i 0
        = cumS S (pos + i) := by
    intro i hi
    rw [getD_cumsum_add _ _ i (by simpa using hi), ← List.map_take, prefixSum,
      ← prefix_chunk_sum stepSum S c pos hc (i + 1) (by omega), cumS,
      Nat.add_assoc]
  have hcntV : ∀ i, i < c.length →
      ((cumsum (c.map (fun s => if s.1 then 0 else (g : ℚ)))).map
          (· + prefixCnt g S pos)).getD i 0
        = cumC S (pos + i) * (g : ℚ) := by
    intro i hi
    rw [getD_cumsum_add _ _ i (by simpa using hi), ← List.map_take]
    have h1 : prefixCnt g S pos +
        ((c.take (i + 1)).map (fun s => if s.1 then 0 else (g : ℚ))).sum
          = prefixCnt g S (pos + (i + 1)) := by
      rw [prefixCnt, prefixCnt,
        prefix_chunk_sum (fun s => if s.1 then 0 else (g : ℚ)) S c pos hc
          (i + 1) (by omega)]
    rw [h1, prefixCnt_eq_mul, cumC, Nat.add_assoc]
  set meanL := List.zipWith (fun s cc => s / max cc 1)
    ((cumsum (c.map stepSum)).map (· + prefixSum S pos))
    ((cumsum (c.map (fun s => if s.1 then 0 else (g : ℚ)))).map
      (· + prefixCnt g S pos)) with hmeanL
  have hlen1 : ((cumsum (c.map stepSum)).map (· + prefixSum S pos)).length
      = c.length := by simp [length_cumsum]
  have hlen2 : ((cumsum (c.map (fun s => if s.1 then 0 else (g : ℚ)))).map
      (· + prefixCnt g S pos)).length = c.length := by simp [length_cumsum]
  have hlenMean : meanL.length = c.length := by
    rw [hmeanL, List.length_zipWith, hlen1, hlen2, min_self]
  have hmean : ∀ i, i < c.length → meanL.getD i 0 = bMean g 0 S (pos + i) := by
    intro i hi
    rw [hmeanL]
    rw [List.getD_eq_getElem _ _ (by rw [List.length_zipWith, hlen1, hlen2, min_self]; exact hi),
      List.getElem_zipWith,
      ← List.getD_eq_getElem _ 0 (by rw [hlen1]; exact hi),
      ← List.getD_eq_getElem _ 0 (by rw [hlen2]; exact hi),
      hsumV i hi, hcntV i hi, bMean, bSum_zero, bCnt_zero]
  -- the squared-deviation steps of the chunk agree with the batch ones
  have hsqlen : (List.zipWith stepSq meanL c).length = c.length := by
    rw [List.length_zipWith, hlenMean, min_self]
  have hsq : ∀ u, u < c.length →
      (List.zipWith stepSq meanL c).getD u 0 = qAt g 0 S (pos + u) := by
    intro u hu
    rw [List.getD_eq_getElem _ _ (by rw [hsqlen]; exact hu), List.getElem_zipWith,
      ← List.getD_eq_getElem _ 0 (by rw [hlenMean]; exact hu),
      ← List.getD_eq_getElem _ (false, []) hu,
      hmean u hu, qAt, ← hstep u hu, stepAt]
  have hsqsum : ∀ i, i ≤ c.length →
      ((List.zipWith stepSq meanL c).take i).sum =
        ((List.range i).map (fun u => qAt g 0 S (pos + u))).sum := by
    intro i hi
    rw [sum_take_getD _ i (by rw [hsqlen]; exact hi)]
    congr 1
    apply List.map_congr_left
    intro u hu
    exact hsq u (by have := List.mem_range.mp hu; omega)
  have hqsplit : ∀ i, prefixQ g S pos +
      ((List.range i).map (fun u => qAt g 0 S (pos + u))).sum
        = prefixQ g S (pos + i) := by
    intro i
    rw [prefixQ, prefixQ, List.range_add, List.map_append, List.sum_append,
      List.map_map]
    rfl
  have hsumVV : ∀ i, i < c.length →
      ((cumsum (List.zipWith stepSq meanL c)).map (· + prefixQ g S pos)).getD i 0
        = qcum g 0 S (pos + i) := by
    intro i hi
    rw [getD_cumsum_add _ _ i (by rw [hsqlen]; exact hi),
      hsqsum (i + 1) (by omega), hqsplit (i + 1), prefixQ, qcum, Nat.add_assoc]
  have hcm : ∀ i, i < c.length →
      (ComputeMoments g 0 S).getD (pos + i) (0, 0)
        = (bMean g 0 S (pos + i), bVar g 0 S (pos + i)) :=
    fun i hi => getD_ComputeMoments g 0 S (pos + i) (by omega)
  constructor
  · -- the outputs of the chunk are the corresponding batch segment
    simp only [StreamMoments, prefixState]
    rw [← hmeanL]
    apply List.ext_getElem
    · simp only [List.length_zip, List.length_zipWith, List.length_map,
        length_cumsum, hlenMean, List.length_take, List.length_drop,
        length_ComputeMoments]
      omega
    · intro n h1 h2
      have hn : n < c.length := by
        rw [List.length_zip, hlenMean] at h1
        omega
      have hvlen : ((cumsum (List.zipWith stepSq meanL c)).map
          (· + prefixQ g S pos)).length = c.length := by
        simp [length_cumsum, hsqlen]
      rw [List.getElem_zip, List.getElem_take, List.getElem_drop,
        ← List.getD_eq_getElem _ (0, 0) (by rw [length_ComputeMoments]; omega),
        hcm n hn]
      rw [← List.getD_eq_getElem _ 0 (by rw [hlenMean]; exact hn), hmean n hn]
      rw [List.getElem_zipWith,
        ← List.getD_eq_getElem _ 0 (by rw [hvlen]; exact hn),
        ← List.getD_eq_getElem _ 0 (by rw [hlen2]; exact hn),
        hsumVV n hn, hcntV n hn, bVar, subQ_zero, sub_zero, bCnt_zero]
  · -- the updated state carries the statistics of the extended prefix
    simp only [StreamMoments, prefixState]
    rw [← hmeanL]
    rcases Nat.eq_zero_or_pos c.length with hc0 | hcpos
    · have hcnil : c = [] := List.length_eq_zero.mp hc0
      subst hcnil
      simp [cumsum, cumsumFrom]
    · have hcne : c ≠ [] := by
        intro h
        rw [h] at hcpos
        simp at hcpos
      have hne1 : c.map stepSum ≠ [] := by simpa using hcne
      have hne2 : c.map (fun s => if s.1 then 0 else (g : ℚ)) ≠ [] := by
        simpa using hcne
      have hne3 : List.zipWith stepSq meanL c ≠ [] := by
        intro h
        have h2 : (List.zipWith stepSq meanL c).length = 0 := by rw [h]; rfl
        rw [hsqlen] at h2
        omega
      rw [cumsum, map_add_cumsumFrom, zero_add,
        cumsum, map_add_cumsumFrom, zero_add,
        cumsum, map_add_cumsumFrom, zero_add,
        getLastD_cumsumFrom _ _ _ hne1,
        getLastD_cumsumFrom _ _ _ hne2,
        getLastD_cumsumFrom _ _ _ hne3]
      have hs1 : prefixSum S pos + (c.map stepSum).sum
          = prefixSum S (pos + c.length) := by
        rw [prefixSum, prefixSum,
          prefix_chunk_sum stepSum S c pos hc c.length (le_refl _),
          List.take_length]
      have hs2 : prefixCnt g S pos
            + (c.map (fun s => if s.1 then 0 else (g : ℚ))).sum
          = prefixCnt g S (pos + c.length) := by
        rw [prefixCnt, prefixCnt,
          prefix_chunk_sum (fun s => if s.1 then 0 else (g : ℚ)) S c pos hc
            c.length (le_refl _), List.take_length]
      have hs3 : prefixQ g S pos + (List.zipWith stepSq meanL c).sum
          = prefixQ g S (pos + c.length) := by
        have : (List.zipWith stepSq meanL c).sum
            = ((List.zipWith stepSq meanL c).take c.length).sum := by
          rw [← hsqlen, List.take_length]
        rw [this, hsqsum c.length (le_refl _), hqsplit c.length]
      rw [hs1, hs2, hs3]

theorem streamChunks_spec (g : ℕ) (S : List Step) (chunks : List (List Step)) :
    ∀ pos : ℕ, chunks.flatten = S.drop pos → pos ≤ S.length →
      (streamChunks g chunks (prefixState g S pos)).1
        = (ComputeMoments g 0 S).drop pos := by
  induction chunks with
  | nil =>
    intro pos hflat hpos
    have : S.length ≤ pos := List.drop_eq_nil_iff.mp hflat.symm
    simp only [streamChunks]
    rw [eq_comm, List.drop_eq_nil_iff, length_ComputeMoments]
    exact this
  | cons c rest ih =>
    intro pos hflat hpos
    have hcl : c.length ≤ (S.drop pos).length := by
      have := congrArg List.length hflat
      simp only [List.flatten_cons, List.length_append] at this
      omega
    have hc : c = (S.drop pos).take c.length := by
      have h1 : (c ++ rest.flatten).take c.length = (S.drop pos).take c.length := by
        rw [List.flatten_cons] at hflat
        rw [hflat]
      rw [← h1, List.take_left]
    have hlen : pos + c.length ≤ S.length := by
      rw [List.length_drop] at hcl
      omega
    have hrest : rest.flatten = S.drop (pos + c.length) := by
      have h1 : (c ++ rest.flatten).drop c.length = (S.drop pos).drop c.length := by
        rw [List.flatten_cons] at hflat
        rw [hflat]
      rw [List.drop_left] at h1
      rw [h1, List.drop_drop, Nat.add_comm]
    obtain ⟨hout, hstate⟩ := StreamMoments_spec g S pos c hc hlen
    simp only [streamChunks]
    rw [hstate, hout, ih (pos + c.length) hrest (by omega)]
    have hdd : (ComputeMoments g 0 S).drop (pos + c.length)
        = ((ComputeMoments g 0 S).drop pos).drop c.length := by
      rw [List.drop_drop]
    rw [hdd, List.take_append_drop]

/-! ### The windowed streaming estimator: supporting lemmas -/

theorem getD_range_map (f : ℕ → ℚ) (W j : ℕ) (hj : j < W) :
    ((List.range W).map f).getD j 0 = f j := by
  rw [List.getD_eq_getElem _ _ (by simpa using hj), List.getElem_map,
    List.getElem_range]

theorem getD_append_lt {α : Type} (l1 l2 : List α) (j : ℕ) (h : j < l1.length)
    (d : α) : (l1 ++ l2).getD j d = l1.getD j d := by
  rw [List.getD_eq_getElem _ _ (by rw [List.length_append]; omega),
    List.getD_eq_getElem _ _ h, List.getElem_append_left h]

theorem getD_append_ge {α : Type} (l1 l2 : List α) (j : ℕ) (h : l1.length ≤ j)
    (d : α) : (l1 ++ l2).getD j d = l2.getD (j - l1.length) d := by
  by_cases h2 : j - l1.length < l2.length
  · rw [List.getD_eq_getElem _ _ (by rw [List.length_append]; omega),
      List.getD_eq_getElem _ _ h2, List.getElem_append_right h]
  · rw [List.getD_eq_default _ _ (by rw [List.length_append]; omega),
      List.getD_eq_default _ _ (by omega)]

theorem getD_take_lt {α : Type} (l : List α) (n j : ℕ) (h : j < n) (d : α) :
    (l.take n).getD j d = l.getD j d := by
  by_cases h2 : j < l.length
  · rw [List.getD_eq_getElem _ _ (by rw [List.length_take]; omega),
      List.getD_eq_getElem _ _ h2, List.getElem_take]
  · rw [List.getD_eq_default _ _ (by rw [List.length_take]; omega),
      List.getD_eq_default _ _ (by omega)]

theorem getD_drop_add {α : Type} (l : List α) (n j : ℕ) (d : α) :
    (l.drop n).getD j d = l.getD (n + j) d := by
  by_cases h : n + j < l.length
  · rw [List.getD_eq_getElem _ _ (by rw [List.length_drop]; omega),
      List.getD_eq_getElem _ _ h, List.getElem_drop]
  · rw [List.getD_eq_default _ _ (by rw [List.length_drop]; omega),
      List.getD_eq_default _ _ (by omega)]

theorem getD_replicate_eq {α : Type} (n : ℕ) (a : α) (j : ℕ) (d : α) :
    (List.replicate n a).getD j d = if j < n then a else d := by
  by_cases h : j < n
  · rw [if_pos h, List.getD_eq_getElem _ _ (by simpa using h),
      List.getElem_replicate]
  · rw [if_neg h, List.getD_eq_default _ _ (by simpa using h)]

theorem sum_indicator_range (L0 : ℕ) :
    ∀ n, ((List.range n).map (fun w => if w < L0 then (1 : ℚ) else 0)).sum
      = ((min n L0 : ℕ) : ℚ)
  | 0 => by simp
  | (n + 1) => by
    rw [List.range_succ, List.map_append, List.sum_append,
      sum_indicator_range L0 n]
    by_cases h : n < L0
    · have h1 : min n L0 = n := by omega
      have h2 : min (n + 1) L0 = n + 1 := by omega
      rw [h1, h2]
      simp [h]
    · have h1 : min n L0 = L0 := by omega
      have h2 : min (n + 1) L0 = L0 := by omega
      rw [h1, h2]
      simp [h]

theorem range_sum_stable (φ : ℕ → ℚ) (a b : ℕ) (hab : a ≤ b)
    (h0 : ∀ w, a ≤ w → w < b → φ w = 0) :
    ((List.range b).map φ).sum = ((List.range a).map φ).sum := by
  have hb : b = a + (b - a) := by omega
  rw [hb, List.range_add, List.map_append, List.sum_append, List.map_map]
  have hz : ((List.range (b - a)).map (φ ∘ fun x => a + x)).sum = 0 := by
    apply List.sum_eq_zero
    intro x hx
    obtain ⟨w, hw, hxx⟩ := List.mem_map.mp hx
    rw [← hxx]
    exact h0 (a + w) (by omega) (by have := List.mem_range.mp hw; omega)
  rw [hz, add_zero]

theorem cumRange_succ_split (φ : ℕ → ℚ) (pos i : ℕ) :
    ((List.range pos).map φ).sum
        + ((List.range (i + 1)).map (fun j => φ (pos + j))).sum
      = cumRange φ (pos + i) := by
  rw [cumRange]
  have h1 : pos + i + 1 = pos + (i + 1) := by omega
  rw [h1]
  conv_rhs => rw [List.range_add]
  rw [List.map_append, List.sum_append, List.map_map]
  rfl

theorem cumS_eq_cumRange (S : List Step) (x : ℕ) (hx : x < S.length) :
    cumS S x = cumRange (sAt S) x := by
  rw [cumS, cumRange, sum_take_map_eq_range stepSum S (x + 1) (by omega)]
  rfl

theorem validLen_le (S : List Step) : validLen S ≤ S.length := by
  rw [validLen]
  calc LengthsFromPaddings (padsOf S) ≤ (padsOf S).length :=
        LengthsFromPaddings_le _
    _ = S.length := length_padsOf S

theorem suffix_flag (S : List Step) (hsuf : SuffixPadded S) (u : ℕ)
    (hu : u < S.length) : (stepAt S u).1 = decide (validLen S ≤ u) := by
  have h1 := getD_padsOf S u hu
  rw [hsuf, getD_PaddingsFromLengths _ _ _ hu] at h1
  exact h1.symm

theorem sAt_zero_of_ge (S : List Step) (hsuf : SuffixPadded S) (u : ℕ)
    (hu : validLen S ≤ u) : sAt S u = 0 := by
  by_cases h : u < S.length
  · rw [sAt, stepSum, suffix_flag S hsuf u h]
    simp [hu]
  · rw [sAt, stepAt, List.getD_eq_default _ _ (by omega)]
    simp [stepSum]

theorem qAt_zero_of_ge (g W : ℕ) (S : List Step) (hsuf : SuffixPadded S)
    (u : ℕ) (hu : validLen S ≤ u) : qAt g W S u = 0 := by
  by_cases h : u < S.length
  · rw [qAt, stepSq, suffix_flag S hsuf u h]
    simp [hu]
  · rw [qAt, stepAt, List.getD_eq_default _ _ (by omega)]
    simp [stepSq]

theorem cumC_suffix (S : List Step) (hsuf : SuffixPadded S) (u : ℕ)
    (hu : u < S.length) :
    cumC S u = ((min (u + 1) (validLen S) : ℕ) : ℚ) := by
  rw [cumC, sum_take_map_eq_range stepCnt S (u + 1) (by omega)]
  have hcong : ∀ w ∈ List.range (u + 1),
      stepCnt (stepAt S w) = (if w < validLen S then (1 : ℚ) else 0) := by
    intro w hw
    have hwS : w < S.length := by have := List.mem_range.mp hw; omega
    rw [stepCnt, suffix_flag S hsuf w hwS]
    by_cases h : validLen S ≤ w
    · simp [h, Nat.not_lt.mpr h]
    · simp [h, Nat.lt_of_not_le h]
  rw [List.map_congr_left hcong, sum_indicator_range]

theorem chunk_pads_suffix (S c : List Step) (pos : ℕ) (hsuf : SuffixPadded S)
    (hc : c = (S.drop pos).take c.length) (hlen : pos + c.length ≤ S.length) :
    padsOf c = PaddingsFromLengths (validLen S - pos) c.length := by
  apply List.ext_getElem
  · rw [length_padsOf, length_PaddingsFromLengths]
  · intro n h1 h2
    have hn : n < c.length := by rwa [length_padsOf] at h1
    rw [← List.getD_eq_getElem _ false h1, ← List.getD_eq_getElem _ false h2,
      getD_padsOf c n hn, chunk_stepAt S c pos hc hlen n hn,
      suffix_flag S hsuf _ (by omega), getD_PaddingsFromLengths _ _ _ hn]
    exact decide_eq_decide.mpr (by omega)

/-! ### The one-call characterization of the windowed splice-and-trim -/

theorem CWCS_core (W pos L t m l V : ℕ) (φ : ℕ → ℚ) (series' : List Step)
    (cached : List ℚ)
    (hW : 0 < W)
    (hV : V = min pos L)
    (hm : m = min V W)
    (hl : l = min (L - pos) t)
    (hphi : ∀ u, L ≤ u → φ u = 0)
    (hts : series'.length = t)
    (hsteps : series'.map stepSum = (List.range t).map (fun i => φ (pos + i)))
    (hcached : cached = (List.range W).map
      (fun j => if j < m then cumRange φ (V - m + j) else 0)) :
    (ComputeWindowedCumSumB1 W series' (PaddingsFromLengths (L - pos) t) cached
        (PaddingsFromLengths m W) m (m - 1) l).2.1
      = (List.range (W + t)).map
          (fun j => if j < m + l then cumRange φ (V - m + j) else 0)
    ∧ (ComputeWindowedCumSumB1 W series' (PaddingsFromLengths (L - pos) t) cached
        (PaddingsFromLengths m W) m (m - 1) l).2.2
      = PaddingsFromLengths (m + l) (W + t)
    ∧ (ComputeWindowedCumSumB1 W series' (PaddingsFromLengths (L - pos) t) cached
        (PaddingsFromLengths m W) m (m - 1) l).1.length = t
    ∧ ∀ i, i < t →
      (ComputeWindowedCumSumB1 W series' (PaddingsFromLengths (L - pos) t) cached
          (PaddingsFromLengths m W) m (m - 1) l).1.getD i 0
        = if i < l then
            cumRange φ (pos + i) - (if W ≤ m + i then cumRange φ (pos + i - W) else 0)
          else 0 := by
  have hmW : m ≤ W := by omega
  have hmV : m ≤ V := by omega
  have hlt : l ≤ t := by omega
  have hVpos : l ≠ 0 → V = pos := by omega
  have hclen : cached.length = W := by rw [hcached]; simp
  have hlast : cached.getD (m - 1) 0 = ((List.range pos).map φ).sum := by
    by_cases hm0 : m = 0
    · rw [hm0, hcached, getD_range_map _ _ _ hW]
      rw [if_neg (by omega)]
      rcases (by omega : pos = 0 ∨ L = 0) with h | h
      · rw [h]; simp
      · rw [eq_comm]
        apply List.sum_eq_zero
        intro x hx
        obtain ⟨w, hw, hxx⟩ := List.mem_map.mp hx
        rw [← hxx]
        exact hphi w (by omega)
    · have hm1 : 1 ≤ m := by omega
      rw [hcached, getD_range_map _ _ _ (by omega), if_pos (by omega)]
      have hidx : V - m + (m - 1) = V - 1 := by omega
      rw [hidx, cumRange]
      have hV1 : V - 1 + 1 = V := by omega
      rw [hV1]
      rw [range_sum_stable φ V pos (by omega) (fun w hw1 hw2 => hphi w (by omega))]
  have hcur : ∀ i, i < t →
      ((cumsum (series'.map stepSum)).map (· + cached.getD (m - 1) 0)).getD i 0
        = cumRange φ (pos + i) := by
    intro i hi
    rw [getD_cumsum_add _ _ i (by rw [List.length_map, hts]; exact hi)]
    rw [hsteps, ← List.map_take, List.take_range, min_eq_left (by omega)]
    rw [hlast, cumRange_succ_split]
  have hconcat : (ComputeWindowedCumSumB1 W series'
        (PaddingsFromLengths (L - pos) t) cached
        (PaddingsFromLengths m W) m (m - 1) l).2.1
      = (List.range (W + t)).map
          (fun j => if j < m + l then cumRange φ (V - m + j) else 0) := by
    show cached.take m ++
        ((cumsum (series'.map stepSum)).map (· + cached.getD (m - 1) 0)).take l ++
        List.replicate (W + series'.length - m - l) 0
      = (List.range (W + t)).map
          (fun j => if j < m + l then cumRange φ (V - m + j) else 0)
    have hculen : ((cumsum (series'.map stepSum)).map
        (· + cached.getD (m - 1) 0)).length = t := by
      rw [List.length_map, length_cumsum, List.length_map, hts]
    rw [List.append_assoc]
    apply List.ext_getElem
    · simp only [List.length_append, List.length_take, List.length_replicate,
        List.length_map, List.length_range, hclen, hculen, hts]
      omega
    · intro j h1 h2
      have hj : j < W + t := by simpa using h2
      rw [← List.getD_eq_getElem _ 0 h1, ← List.getD_eq_getElem _ 0 h2,
        getD_range_map _ _ _ hj]
      by_cases hjm : j < m
      · rw [getD_append_lt _ _ j (by rw [List.length_take, hclen]; omega),
          getD_take_lt _ _ _ hjm, hcached, getD_range_map _ _ _ (by omega),
          if_pos hjm, if_pos (by omega)]
      · rw [getD_append_ge _ _ j (by rw [List.length_take, hclen]; omega)]
        have hlen1 : (cached.take m).length = m := by
          rw [List.length_take, hclen]; omega
        rw [hlen1]
        by_cases hjl : j < m + l
        · rw [getD_append_lt _ _ _ (by rw [List.length_take, hculen]; omega),
            getD_take_lt _ _ _ (by omega), hcur (j - m) (by omega)]
          rw [if_pos hjl]
          have hV' : V = pos := hVpos (by omega)
          congr 1
          omega
        · rw [getD_append_ge _ _ _ (by rw [List.length_take, hculen]; omega),
            getD_replicate_eq]
          rw [if_neg hjl, if_pos (by
            simp only [List.length_take, hculen]
            omega)]
    -- end concat
  have hcpads : (ComputeWindowedCumSumB1 W series'
        (PaddingsFromLengths (L - pos) t) cached
        (PaddingsFromLengths m W) m (m - 1) l).2.2
      = PaddingsFromLengths (m + l) (W + t) := by
    show (PaddingsFromLengths m W).take m ++
        (PaddingsFromLengths (L - pos) t).take l ++
        List.replicate (W + series'.length - m - l) true
      = PaddingsFromLengths (m + l) (W + t)
    rw [List.append_assoc]
    apply List.ext_getElem
    · simp only [List.length_append, List.length_take, List.length_replicate,
        length_PaddingsFromLengths, hts]
      omega
    · intro j h1 h2
      have hj : j < W + t := by simpa [length_PaddingsFromLengths] using h2
      rw [← List.getD_eq_getElem _ false h1, ← List.getD_eq_getElem _ false h2,
        getD_PaddingsFromLengths _ _ _ hj]
      by_cases hjm : j < m
      · rw [getD_append_lt _ _ j (by
            rw [List.length_take, length_PaddingsFromLengths]; omega),
          getD_take_lt _ _ _ hjm, getD_PaddingsFromLengths _ _ _ (by omega)]
        exact decide_eq_decide.mpr (by omega)
      · rw [getD_append_ge _ _ j (by
            rw [List.length_take, length_PaddingsFromLengths]; omega)]
        have hlen1 : ((PaddingsFromLengths m W).take m).length = m := by
          rw [List.length_take, length_PaddingsFromLengths]; omega
        rw [hlen1]
        by_cases hjl : j < m + l
        · rw [getD_append_lt _ _ _ (by
              rw [List.length_take, length_PaddingsFromLengths]; omega),
            getD_take_lt _ _ _ (by omega),
            getD_PaddingsFromLengths _ _ _ (by omega)]
          exact decide_eq_decide.mpr (by omega)
        · rw [getD_append_ge _ _ _ (by
              rw [List.length_take, length_PaddingsFromLengths]; omega),
            getD_replicate_eq, if_pos (by
              simp only [List.length_take, length_PaddingsFromLengths]
              omega)]
          exact (decide_eq_true (by omega)).symm
  have hout0 : (ComputeWindowedCumSumB1 W series'
        (PaddingsFromLengths (L - pos) t) cached
        (PaddingsFromLengths m W) m (m - 1) l).1
      = ((WindowedCumSum W (PaddingsFromLengths (m + l) (W + t))
          ((List.range (W + t)).map
            (fun j => if j < m + l then cumRange φ (V - m + j) else 0))).drop
            m).take t := by
    show ((WindowedCumSum W
        ((ComputeWindowedCumSumB1 W series' (PaddingsFromLengths (L - pos) t)
          cached (PaddingsFromLengths m W) m (m - 1) l).2.2)
        ((ComputeWindowedCumSumB1 W series' (PaddingsFromLengths (L - pos) t)
          cached (PaddingsFromLengths m W) m (m - 1) l).2.1)).drop m).take
      series'.length = _
    rw [hconcat, hcpads, hts]
  have hwlen0 : (WindowedCumSum W (PaddingsFromLengths (m + l) (W + t))
      ((List.range (W + t)).map
        (fun j => if j < m + l then cumRange φ (V - m + j) else 0))).length
      = W + t := by
    rw [length_WindowedCumSum]
    · simp
    · simp [length_PaddingsFromLengths]
  have hlenout : (ComputeWindowedCumSumB1 W series'
        (PaddingsFromLengths (L - pos) t) cached
        (PaddingsFromLengths m W) m (m - 1) l).1.length = t := by
    rw [hout0, List.length_take, List.length_drop, hwlen0]
    omega
  refine ⟨hconcat, hcpads, hlenout, ?_⟩
  intro i hi
  have hout : (ComputeWindowedCumSumB1 W series'
        (PaddingsFromLengths (L - pos) t) cached
        (PaddingsFromLengths m W) m (m - 1) l).1
      = ((WindowedCumSum W
          ((ComputeWindowedCumSumB1 W series' (PaddingsFromLengths (L - pos) t)
            cached (PaddingsFromLengths m W) m (m - 1) l).2.2)
          ((ComputeWindowedCumSumB1 W series' (PaddingsFromLengths (L - pos) t)
            cached (PaddingsFromLengths m W) m (m - 1) l).2.1)).drop m).take
        series'.length := rfl
  rw [hout, hconcat, hcpads, hts]
  have hwlen : (WindowedCumSum W (PaddingsFromLengths (m + l) (W + t))
      ((List.range (W + t)).map
        (fun j => if j < m + l then cumRange φ (V - m + j) else 0))).length
      = W + t := by
    rw [length_WindowedCumSum]
    · simp
    · simp [length_PaddingsFromLengths]
  rw [getD_take_lt _ _ _ hi, getD_drop_add]
  have hmi : m + i < W + t := by omega
  rw [getD_WindowedCumSum _ _ _ _ (by simp [length_PaddingsFromLengths])
    (by simpa using hmi)]
  rw [getD_range_map _ _ _ hmi,
    getD_PaddingsFromLengths _ _ _ hmi]
  by_cases hil : i < l
  · have hV' : V = pos := hVpos (by omega)
    have e1 : m + i < m + l := by omega
    have e2 : decide (m + l ≤ m + i) = false := decide_eq_false (by omega)
    rw [if_pos e1, if_pos hil,
      show V - m + (m + i) = pos + i by omega]
    by_cases hWmi : W ≤ m + i
    · rw [if_pos (And.intro hWmi e2), if_pos hWmi,
        getD_range_map _ _ _ (show m + i - W < W + t by omega),
        if_pos (show m + i - W < m + l by omega),
        show V - m + (m + i - W) = pos + i - W by omega]
    · rw [if_neg (fun hcc => hWmi hcc.1), if_neg hWmi]
  · have e2 : decide (m + l ≤ m + i) = true := decide_eq_true (by omega)
    rw [if_neg (show ¬ m + i < m + l by omega), if_neg hil,
      if_neg (fun hcc => by rw [e2] at hcc; exact Bool.noConfusion hcc.2),
      sub_zero]

theorem trim_concat_core (W t m l : ℕ) (V : ℕ) (φ : ℕ → ℚ)
    (hmW : m ≤ W) (hlt : l ≤ t) :
    TrimFromTheFrontB1
        ((List.range (W + t)).map
          (fun j => if j < m + l then cumRange φ (V - m + j) else 0))
        (m + l - min (m + l) W) W
      = (List.range W).map (fun j =>
          if j < min (m + l) W then
            cumRange φ (V - m + (m + l - min (m + l) W) + j) else 0) := by
  rw [TrimFromTheFrontB1]
  apply List.ext_getElem
  · simp only [List.length_take, List.length_drop, List.length_map,
      List.length_range]
    omega
  · intro j h1 h2
    have hj : j < W := by simpa using h2
    have hd : m + l - min (m + l) W + j < W + t := by omega
    rw [← List.getD_eq_getElem _ 0 h1, ← List.getD_eq_getElem _ 0 h2,
      getD_range_map _ _ _ hj, getD_take_lt _ _ _ hj, getD_drop_add,
      getD_range_map _ _ _ hd]
    by_cases hjc : j < min (m + l) W
    · rw [if_pos (by omega), if_pos hjc]
      congr 1
      omega
    · rw [if_neg (by omega), if_neg hjc]

theorem pads_indicator_map (L0 t : ℕ) :
    (PaddingsFromLengths L0 t).map (fun p => if p then (0 : ℚ) else 1)
      = (List.range t).map (fun j => if j < L0 then (1 : ℚ) else 0) := by
  rw [PaddingsFromLengths, List.map_map]
  apply List.map_congr_left
  intro j hj
  by_cases h : L0 ≤ j
  · simp [h, Nat.not_lt.mpr h]
  · simp [h, Nat.lt_of_not_le h]

theorem GetUpdatedCount_spec (W M L0 t : ℕ) (i : ℕ) (hi : i < t) :
    (GetUpdatedCount W M (PaddingsFromLengths L0 t)).getD i 0
      = ((min (min (i + 1) L0 + M) W : ℕ) : ℚ) := by
  rw [GetUpdatedCount, pads_indicator_map]
  have hlen : (cumsum ((List.range t).map
      (fun j => if j < L0 then (1 : ℚ) else 0))).length = t := by
    rw [length_cumsum, List.length_map, List.length_range]
  rw [List.getD_eq_getElem _ _ (by rw [List.length_map, hlen]; exact hi),
    List.getElem_map, ← List.getD_eq_getElem _ 0 (by rw [hlen]; exact hi)]
  have hinner : (cumsum ((List.range t).map
      (fun j => if j < L0 then (1 : ℚ) else 0))).getD i 0
      = ((min (i + 1) L0 : ℕ) : ℚ) := by
    rw [getD_cumsum _ i (by rw [List.length_map, List.length_range]; exact hi),
      ← List.map_take, List.take_range, show min (i + 1) t = i + 1 by omega,
      sum_indicator_range]
  rw [hinner]
  push_cast [Nat.cast_min]
  rfl

theorem length_GetUpdatedCount (W M : ℕ) (pads : List Bool) :
    (GetUpdatedCount W M pads).length = pads.length := by
  rw [GetUpdatedCount, List.length_map, length_cumsum, List.length_map]

/-! ### The windowed streaming chunk against the windowed batch estimator -/

set_option maxHeartbeats 1600000 in
theorem StreamWindowedMoments_spec (g W : ℕ) (S : List Step) (hW : 0 < W)
    (hsuf : SuffixPadded S) (pos : ℕ) (c : List Step)
    (hc : c = (S.drop pos).take c.length) (hlen : pos + c.length ≤ S.length) :
    (∀ i, i < c.length → pos + i < validLen S →
       (StreamWindowedMoments W g c (wPrefixState g W S pos)).1.getD i (0, 0)
         = (ComputeMoments g W S).getD (pos + i) (0, 0))
    ∧ (∀ i, i < c.length → validLen S ≤ pos + i →
       (StreamWindowedMoments W g c (wPrefixState g W S pos)).1.getD i (0, 0)
         = (0, 0))
    ∧ (StreamWindowedMoments W g c (wPrefixState g W S pos)).1.length
        = c.length
    ∧ (StreamWindowedMoments W g c (wPrefixState g W S pos)).2
        = wPrefixState g W S (pos + c.length) := by
  have hL : validLen S ≤ S.length := validLen_le S
  have hv1 : vPos S pos = min pos (validLen S) := rfl
  have hw1 : wCnt W S pos = min (vPos S pos) W := rfl
  have hv2 : vPos S (pos + c.length) = min (pos + c.length) (validLen S) := rfl
  have hw2 : wCnt W S (pos + c.length) = min (vPos S (pos + c.length)) W := rfl
  have hpads : padsOf c = PaddingsFromLengths (validLen S - pos) c.length :=
    chunk_pads_suffix S c pos hsuf hc hlen
  have hsteps1 : c.map stepSum
      = (List.range c.length).map (fun i => sAt S (pos + i)) := by
    apply List.ext_getElem
    · simp
    · intro n h1 h2
      have hn : n < c.length := by simpa using h1
      rw [List.getElem_map, List.getElem_map, List.getElem_range,
        ← List.getD_eq_getElem _ (false, []) hn,
        show c.getD n (false, []) = stepAt S (pos + n) from
          chunk_stepAt S c pos hc hlen n hn]
      rfl
  have hcore1 := CWCS_core W pos (validLen S) c.length (wCnt W S pos) (min (validLen S - pos) c.length) (vPos S pos)
      (sAt S) c
      ((List.range W).map (fun j => if j < wCnt W S pos then cumRange (sAt S) (vPos S pos - wCnt W S pos + j) else 0))
      hW hv1 hw1 rfl (fun u hu => sAt_zero_of_ge S hsuf u hu) rfl hsteps1 rfl
  obtain ⟨hC1, hP1, hLen1, hOut1⟩ := hcore1
  have hcntD : ∀ i, i < c.length →
      (GetUpdatedCount W (wCnt W S pos) (PaddingsFromLengths (validLen S - pos) c.length)).getD i 0
        = ((min (min (i + 1) (validLen S - pos) + wCnt W S pos) W : ℕ) : ℚ) :=
    fun i hi => GetUpdatedCount_spec W (wCnt W S pos) (validLen S - pos) c.length i hi
  have hbcnt : ∀ i, i < c.length → pos + i < validLen S →
      cumC S (pos + i) - subQ W S (cumC S) (pos + i)
        = ((min (min (i + 1) (validLen S - pos) + wCnt W S pos) W : ℕ) : ℚ) := by
    intro i hi hvalid
    have hflag : (stepAt S (pos + i)).1 = false := by
      rw [suffix_flag S hsuf _ (by omega)]
      exact decide_eq_false (by omega)
    rw [cumC_suffix S hsuf (pos + i) (by omega), subQ, effW]
    by_cases hcond : min W S.length ≤ pos + i
    · rw [if_pos ⟨by omega, hcond, hflag⟩,
        cumC_suffix S hsuf _ (by omega), ← Nat.cast_sub (by omega)]
      exact Nat.cast_inj.mpr (by omega)
    · rw [if_neg (fun hcc => hcond hcc.2.1), sub_zero]
      exact Nat.cast_inj.mpr (by omega)
  have hsubS : ∀ i, i < c.length → pos + i < validLen S →
      subQ W S (cumS S) (pos + i)
        = (if W ≤ wCnt W S pos + i then cumRange (sAt S) (pos + i - W) else 0) := by
    intro i hi hvalid
    have hflag : (stepAt S (pos + i)).1 = false := by
      rw [suffix_flag S hsuf _ (by omega)]
      exact decide_eq_false (by omega)
    rw [subQ, effW]
    by_cases hcond : min W S.length ≤ pos + i
    · have hWS : min W S.length = W := by omega
      rw [if_pos ⟨by omega, hcond, hflag⟩, if_pos (by omega), hWS,
        cumS_eq_cumRange S _ (by omega)]
    · rw [if_neg (fun hcc => hcond hcc.2.1), if_neg (by omega)]
  have hsubQ2 : ∀ i, i < c.length → pos + i < validLen S →
      subQ W S (qcum g W S) (pos + i)
        = (if W ≤ wCnt W S pos + i then cumRange (qAt g W S) (pos + i - W) else 0) := by
    intro i hi hvalid
    have hflag : (stepAt S (pos + i)).1 = false := by
      rw [suffix_flag S hsuf _ (by omega)]
      exact decide_eq_false (by omega)
    rw [subQ, effW]
    by_cases hcond : min W S.length ≤ pos + i
    · have hWS : min W S.length = W := by omega
      rw [if_pos ⟨by omega, hcond, hflag⟩, if_pos (by omega), hWS]
      rfl
    · rw [if_neg (fun hcc => hcond hcc.2.1), if_neg (by omega)]
  have hmeanlen :
      (List.zipWith (fun s cc => s / max (cc * (g : ℚ)) 1) (ComputeWindowedCumSumB1 W c (PaddingsFromLengths (validLen S - pos) c.length)
      ((List.range W).map (fun j => if j < wCnt W S pos then cumRange (sAt S) (vPos S pos - wCnt W S pos + j) else 0))
      (PaddingsFromLengths (wCnt W S pos) W) (wCnt W S pos) (wCnt W S pos - 1) (min (validLen S - pos) c.length)).1
      (GetUpdatedCount W (wCnt W S pos) (PaddingsFromLengths (validLen S - pos) c.length))).length = c.length := by
    rw [List.length_zipWith, hLen1, length_GetUpdatedCount,
      length_PaddingsFromLengths, min_self]
  have hmeanD : ∀ i, i < c.length →
      (List.zipWith (fun s cc => s / max (cc * (g : ℚ)) 1) (ComputeWindowedCumSumB1 W c (PaddingsFromLengths (validLen S - pos) c.length)
      ((List.range W).map (fun j => if j < wCnt W S pos then cumRange (sAt S) (vPos S pos - wCnt W S pos + j) else 0))
      (PaddingsFromLengths (wCnt W S pos) W) (wCnt W S pos) (wCnt W S pos - 1) (min (validLen S - pos) c.length)).1
      (GetUpdatedCount W (wCnt W S pos) (PaddingsFromLengths (validLen S - pos) c.length))).getD i 0
        = if pos + i < validLen S then bMean g W S (pos + i) else 0 := by
    intro i hi
    rw [List.getD_eq_getElem _ _ (by rw [hmeanlen]; exact hi),
      List.getElem_zipWith,
      ← List.getD_eq_getElem _ 0 (by rw [hLen1]; exact hi),
      ← List.getD_eq_getElem _ 0 (by
        rw [length_GetUpdatedCount, length_PaddingsFromLengths]; exact hi),
      hOut1 i hi, hcntD i hi]
    by_cases hvalid : pos + i < validLen S
    · rw [if_pos (show i < min (validLen S - pos) c.length by omega),
        if_pos hvalid, bMean, bSum, bCnt,
        cumS_eq_cumRange S (pos + i) (by omega), hsubS i hi hvalid,
        hbcnt i hi hvalid]
    · rw [if_neg (show ¬ i < min (validLen S - pos) c.length by omega),
        if_neg hvalid, zero_div]
  have hsqlen2 :
      (List.zipWith (fun (s : Step) mm => (s.1, s.2.map (fun x => (x - mm) ^ 2))) c
      (List.zipWith (fun s cc => s / max (cc * (g : ℚ)) 1) (ComputeWindowedCumSumB1 W c (PaddingsFromLengths (validLen S - pos) c.length)
      ((List.range W).map (fun j => if j < wCnt W S pos then cumRange (sAt S) (vPos S pos - wCnt W S pos + j) else 0))
      (PaddingsFromLengths (wCnt W S pos) W) (wCnt W S pos) (wCnt W S pos - 1) (min (validLen S - pos) c.length)).1
      (GetUpdatedCount W (wCnt W S pos) (PaddingsFromLengths (validLen S - pos) c.length)))).length = c.length := by
    rw [List.length_zipWith, hmeanlen, min_self]
  have hsteps2 :
      (List.zipWith (fun (s : Step) mm => (s.1, s.2.map (fun x => (x - mm) ^ 2))) c
      (List.zipWith (fun s cc => s / max (cc * (g : ℚ)) 1) (ComputeWindowedCumSumB1 W c (PaddingsFromLengths (validLen S - pos) c.length)
      ((List.range W).map (fun j => if j < wCnt W S pos then cumRange (sAt S) (vPos S pos - wCnt W S pos + j) else 0))
      (PaddingsFromLengths (wCnt W S pos) W) (wCnt W S pos) (wCnt W S pos - 1) (min (validLen S - pos) c.length)).1
      (GetUpdatedCount W (wCnt W S pos) (PaddingsFromLengths (validLen S - pos) c.length)))).map stepSum
        = (List.range c.length).map (fun i => qAt g W S (pos + i)) := by
    apply List.ext_getElem
    · rw [List.length_map, hsqlen2, List.length_map, List.length_range]
    · intro n h1 h2
      have hn : n < c.length := by
        rw [List.length_map, hsqlen2] at h1
        exact h1
      rw [List.getElem_map, List.getElem_map, List.getElem_range,
        List.getElem_zipWith]
      rw [← List.getD_eq_getElem _ (false, []) hn,
        ← List.getD_eq_getElem _ 0 (by rw [hmeanlen]; exact hn),
        hmeanD n hn]
      rw [show c.getD n (false, []) = stepAt S (pos + n) from
        chunk_stepAt S c pos hc hlen n hn]
      by_cases hval : pos + n < validLen S
      · rw [if_pos hval, qAt, stepSq, stepSum]
      · have hflagn : (stepAt S (pos + n)).1 = true := by
          rw [suffix_flag S hsuf _ (by omega)]
          exact decide_eq_true (by omega)
        rw [if_neg hval, stepSum, hflagn,
          qAt_zero_of_ge g W S hsuf _ (by omega)]
        rfl
  have hcore2 := CWCS_core W pos (validLen S) c.length (wCnt W S pos) (min (validLen S - pos) c.length) (vPos S pos)
      (qAt g W S)
      (List.zipWith (fun (s : Step) mm => (s.1, s.2.map (fun x => (x - mm) ^ 2))) c
      (List.zipWith (fun s cc => s / max (cc * (g : ℚ)) 1) (ComputeWindowedCumSumB1 W c (PaddingsFromLengths (validLen S - pos) c.length)
      ((List.range W).map (fun j => if j < wCnt W S pos then cumRange (sAt S) (vPos S pos - wCnt W S pos + j) else 0))
      (PaddingsFromLengths (wCnt W S pos) W) (wCnt W S pos) (wCnt W S pos - 1) (min (validLen S - pos) c.length)).1
      (GetUpdatedCount W (wCnt W S pos) (PaddingsFromLengths (validLen S - pos) c.length))))
      ((List.range W).map (fun j => if j < wCnt W S pos then cumRange (qAt g W S) (vPos S pos - wCnt W S pos + j) else 0))
      hW hv1 hw1 rfl (fun u hu => qAt_zero_of_ge g W S hsuf u hu) hsqlen2
      hsteps2 rfl
  obtain ⟨hC2, hP2, hLen2, hOut2⟩ := hcore2
  have hvarD : ∀ i, i < c.length →
      (List.zipWith (fun s cc => s / max (cc * (g : ℚ)) 1) (ComputeWindowedCumSumB1 W
      (List.zipWith (fun (s : Step) mm => (s.1, s.2.map (fun x => (x - mm) ^ 2))) c
      (List.zipWith (fun s cc => s / max (cc * (g : ℚ)) 1) (ComputeWindowedCumSumB1 W c (PaddingsFromLengths (validLen S - pos) c.length)
      ((List.range W).map (fun j => if j < wCnt W S pos then cumRange (sAt S) (vPos S pos - wCnt W S pos + j) else 0))
      (PaddingsFromLengths (wCnt W S pos) W) (wCnt W S pos) (wCnt W S pos - 1) (min (validLen S - pos) c.length)).1
      (GetUpdatedCount W (wCnt W S pos) (PaddingsFromLengths (validLen S - pos) c.length))))
      (PaddingsFromLengths (validLen S - pos) c.length)
      ((List.range W).map (fun j => if j < wCnt W S pos then cumRange (qAt g W S) (vPos S pos - wCnt W S pos + j) else 0))
      (PaddingsFromLengths (wCnt W S pos) W) (wCnt W S pos) (wCnt W S pos - 1) (min (validLen S - pos) c.length)).1
      (GetUpdatedCount W (wCnt W S pos) (PaddingsFromLengths (validLen S - pos) c.length))).getD i 0
        = if pos + i < validLen S then bVar g W S (pos + i) else 0 := by
    intro i hi
    rw [List.getD_eq_getElem _ _ (by
        rw [List.length_zipWith, hLen2, length_GetUpdatedCount,
          length_PaddingsFromLengths, min_self]; exact hi),
      List.getElem_zipWith,
      ← List.getD_eq_getElem _ 0 (by rw [hLen2]; exact hi),
      ← List.getD_eq_getElem _ 0 (by
        rw [length_GetUpdatedCount, length_PaddingsFromLengths]; exact hi),
      hOut2 i hi, hcntD i hi]
    by_cases hvalid : pos + i < validLen S
    · rw [if_pos (show i < min (validLen S - pos) c.length by omega),
        if_pos hvalid, bVar, bCnt, hsubQ2 i hi hvalid, hbcnt i hi hvalid]
      rfl
    · rw [if_neg (show ¬ i < min (validLen S - pos) c.length by omega),
        if_neg hvalid, zero_div]
  have hvarlen :
      (List.zipWith (fun s cc => s / max (cc * (g : ℚ)) 1) (ComputeWindowedCumSumB1 W
      (List.zipWith (fun (s : Step) mm => (s.1, s.2.map (fun x => (x - mm) ^ 2))) c
      (List.zipWith (fun s cc => s / max (cc * (g : ℚ)) 1) (ComputeWindowedCumSumB1 W c (PaddingsFromLengths (validLen S - pos) c.length)
      ((List.range W).map (fun j => if j < wCnt W S pos then cumRange (sAt S) (vPos S pos - wCnt W S pos + j) else 0))
      (PaddingsFromLengths (wCnt W S pos) W) (wCnt W S pos) (wCnt W S pos - 1) (min (validLen S - pos) c.length)).1
      (GetUpdatedCount W (wCnt W S pos) (PaddingsFromLengths (validLen S - pos) c.length))))
      (PaddingsFromLengths (validLen S - pos) c.length)
      ((List.range W).map (fun j => if j < wCnt W S pos then cumRange (qAt g W S) (vPos S pos - wCnt W S pos + j) else 0))
      (PaddingsFromLengths (wCnt W S pos) W) (wCnt W S pos) (wCnt W S pos - 1) (min (validLen S - pos) c.length)).1
      (GetUpdatedCount W (wCnt W S pos) (PaddingsFromLengths (validLen S - pos) c.length))).length = c.length := by
    rw [List.length_zipWith, hLen2, length_GetUpdatedCount,
      length_PaddingsFromLengths, min_self]
  refine ⟨?_, ?_, ?_, ?_⟩
  · intro i hi hvalid
    simp only [StreamWindowedMoments, wPrefixState]
    rw [hpads, LengthsFromPaddings_PaddingsFromLengths]
    rw [List.getD_eq_getElem _ _ (by
        rw [List.length_zip, hmeanlen, hvarlen, min_self]; exact hi),
      List.getElem_zip,
      ← List.getD_eq_getElem _ 0 (by rw [hmeanlen]; exact hi),
      ← List.getD_eq_getElem _ 0 (by rw [hvarlen]; exact hi),
      hmeanD i hi, hvarD i hi, if_pos hvalid, if_pos hvalid,
      getD_ComputeMoments g W S (pos + i) (by omega)]
  · intro i hi hinvalid
    simp only [StreamWindowedMoments, wPrefixState]
    rw [hpads, LengthsFromPaddings_PaddingsFromLengths]
    rw [List.getD_eq_getElem _ _ (by
        rw [List.length_zip, hmeanlen, hvarlen, min_self]; exact hi),
      List.getElem_zip,
      ← List.getD_eq_getElem _ 0 (by rw [hmeanlen]; exact hi),
      ← List.getD_eq_getElem _ 0 (by rw [hvarlen]; exact hi),
      hmeanD i hi, hvarD i hi, if_neg (by omega), if_neg (by omega)]
  · simp only [StreamWindowedMoments, wPrefixState]
    rw [hpads, LengthsFromPaddings_PaddingsFromLengths,
      List.length_zip, hmeanlen, hvarlen, min_self]
  · simp only [StreamWindowedMoments, wPrefixState]
    rw [hpads, LengthsFromPaddings_PaddingsFromLengths, hP1,
      LengthsFromPaddings_PaddingsFromLengths,
      show min (wCnt W S pos + min (validLen S - pos) c.length) (W + c.length)
          = wCnt W S pos + min (validLen S - pos) c.length from by omega,
      hC1, hC2,
      trim_concat_core W c.length (wCnt W S pos)
        (min (validLen S - pos) c.length) (vPos S pos) (sAt S)
        (by omega) (by omega),
      trim_concat_core W c.length (wCnt W S pos)
        (min (validLen S - pos) c.length) (vPos S pos) (qAt g W S)
        (by omega) (by omega),
      SWState.mk.injEq]
    refine ⟨?_, ?_, by omega⟩
    · apply List.map_congr_left
      intro j hj
      have hjW : j < W := List.mem_range.mp hj
      by_cases hjc : j < min (wCnt W S pos + min (validLen S - pos) c.length) W
      · rw [if_pos hjc, if_pos (show j < wCnt W S (pos + c.length) by omega),
          show vPos S pos - wCnt W S pos
              + (wCnt W S pos + min (validLen S - pos) c.length
                - min (wCnt W S pos + min (validLen S - pos) c.length) W) + j
            = vPos S (pos + c.length) - wCnt W S (pos + c.length) + j
          from by omega]
      · rw [if_neg hjc, if_neg (show ¬ j < wCnt W S (pos + c.length) by omega)]
    · apply List.map_congr_left
      intro j hj
      have hjW : j < W := List.mem_range.mp hj
      by_cases hjc : j < min (wCnt W S pos + min (validLen S - pos) c.length) W
      · rw [if_pos hjc, if_pos (show j < wCnt W S (pos + c.length) by omega),
          show vPos S pos - wCnt W S pos
              + (wCnt W S pos + min (validLen S - pos) c.length
                - min (wCnt W S pos + min (validLen S - pos) c.length) W) + j
            = vPos S (pos + c.length) - wCnt W S (pos + c.length) + j
          from by omega]
      · rw [if_neg hjc, if_neg (show ¬ j < wCnt W S (pos + c.length) by omega)]

/-- Folding the windowed streaming estimator over a chunking of the tail of
`S`: output positions that are valid in `S` agree with the windowed batch
estimator, the total output length matches, and the final state is the
window cache of the full sequence. -/
theorem streamWindowedChunks_spec (g W : ℕ) (S : List Step) (hW : 0 < W)
    (hsuf : SuffixPadded S) (chunks : List (List Step)) :
    ∀ pos : ℕ, chunks.flatten = S.drop pos → pos ≤ S.length →
      ((streamWindowedChunks W g chunks (wPrefixState g W S pos)).1.length
          = S.length - pos)
      ∧ (∀ i, pos + i < validLen S →
          (streamWindowedChunks W g chunks (wPrefixState g W S pos)).1.getD i (0, 0)
            = (ComputeMoments g W S).getD (pos + i) (0, 0))
      ∧ (streamWindowedChunks W g chunks (wPrefixState g W S pos)).2
          = wPrefixState g W S S.length := by
  have hL : validLen S ≤ S.length := validLen_le S
  induction chunks with
  | nil =>
    intro pos hflat hpos
    have hge : S.length ≤ pos := List.drop_eq_nil_iff.mp hflat.symm
    simp only [streamWindowedChunks]
    refine ⟨by simp; omega, ?_, ?_⟩
    · intro i hi
      exact absurd hi (by omega)
    · rw [show pos = S.length from by omega]
  | cons c rest ih =>
    intro pos hflat hpos
    have hcl : c.length ≤ (S.drop pos).length := by
      have := congrArg List.length hflat
      simp only [List.flatten_cons, List.length_append] at this
      omega
    have hc : c = (S.drop pos).take c.length := by
      have h1 : (c ++ rest.flatten).take c.length = (S.drop pos).take c.length := by
        rw [List.flatten_cons] at hflat
        rw [hflat]
      rw [← h1, List.take_left]
    have hlen : pos + c.length ≤ S.length := by
      rw [List.length_drop] at hcl
      omega
    have hrest : rest.flatten = S.drop (pos + c.length) := by
      have h1 : (c ++ rest.flatten).drop c.length = (S.drop pos).drop c.length := by
        rw [List.flatten_cons] at hflat
        rw [hflat]
      rw [List.drop_left] at h1
      rw [h1, List.drop_drop, Nat.add_comm]
    obtain ⟨hval, hinval, hlen1, hstate⟩ :=
      StreamWindowedMoments_spec g W S hW hsuf pos c hc hlen
    obtain ⟨ihlen, ihval, ihstate⟩ := ih (pos + c.length) hrest (by omega)
    simp only [streamWindowedChunks]
    rw [hstate]
    refine ⟨?_, ?_, ihstate⟩
    · rw [List.length_append, hlen1, ihlen]
      omega
    · intro i hi
      by_cases hic : i < c.length
      · rw [getD_append_lt _ _ i (by rw [hlen1]; exact hic),
          hval i hic (by omega)]
      · rw [getD_append_ge _ _ i (by rw [hlen1]; omega), hlen1,
          ihval (i - c.length) (by omega),
          show pos + c.length + (i - c.length) = pos + i from by omega]

/-- The unwindowed streaming state after zero steps is `zero_state`. -/
theorem prefixState_zero (g : ℕ) (S : List Step) :
    prefixState g S 0 = smZero := by
  simp [prefixState, prefixSum, prefixCnt, prefixQ, smZero]

/-- The windowed streaming state after zero steps is `zero_state`. -/
theorem wPrefixState_zero (g W : ℕ) (S : List Step) :
    wPrefixState g W S 0 = swZero W := by
  have hv : vPos S 0 = min 0 (validLen S) := rfl
  have hw : wCnt W S 0 = min (vPos S 0) W := rfl
  have h : wCnt W S 0 = 0 := by omega
  rw [wPrefixState, swZero, h, SWState.mk.injEq]
  refine ⟨?_, ?_, rfl⟩ <;>
  · apply List.ext_getElem
    · simp
    · intro n h1 h2
      simp

/-! ### Equivalence of the two batch paths (`b == 1` fast path vs general) -/

theorem length_reverseSequence (n : ℕ) (xs : List ℚ) :
    (reverseSequence n xs).length = xs.length := by
  simp [reverseSequence]
  omega

theorem getD_reverseSequence (n : ℕ) (xs : List ℚ) (i : ℕ)
    (hn : n ≤ xs.length) (hi : i < xs.length) :
    (reverseSequence n xs).getD i 0
      = if i < n then xs.getD (n - 1 - i) 0 else xs.getD i 0 := by
  rw [reverseSequence]
  have hl : ((xs.take n).reverse).length = n := by
    rw [List.length_reverse, List.length_take]
    omega
  by_cases h : i < n
  · rw [if_pos h, getD_append_lt _ _ i (by rw [hl]; omega),
      List.getD_eq_getElem _ _ (by rw [hl]; omega), List.getElem_reverse,
      ← List.getD_eq_getElem _ 0 (by rw [List.length_take]; omega),
      show (xs.take n).length - 1 - i = n - 1 - i from by
        rw [List.length_take]; omega,
      getD_take_lt _ _ _ (by omega)]
  · rw [if_neg h, getD_append_ge _ _ i (by rw [hl]; omega), hl, getD_drop_add,
      show n + (i - n) = i from by omega]

theorem length_TrimFromTheFront (x : List ℚ) (trim keep out : ℕ) :
    (TrimFromTheFront x trim keep out).length = min out x.length := by
  simp only [TrimFromTheFront]
  rw [List.length_take, length_reverseSequence, length_ApplyPadding,
    length_PaddingsFromLengths, length_reverseSequence, min_self]

theorem getD_TrimFromTheFront (x : List ℚ) (trim keep out i : ℕ)
    (htk : trim + keep ≤ x.length) (hi : i < out) (hix : i < x.length) :
    (TrimFromTheFront x trim keep out).getD i 0
      = if i < keep then x.getD (trim + i) 0 else 0 := by
  simp only [TrimFromTheFront]
  have hlAP : (ApplyPadding (PaddingsFromLengths keep x.length)
      (reverseSequence (trim + keep) x)).length = x.length := by
    rw [length_ApplyPadding, length_PaddingsFromLengths,
      length_reverseSequence, min_self]
  rw [getD_take_lt _ _ _ hi,
    getD_reverseSequence keep _ i (by rw [hlAP]; omega) (by rw [hlAP]; exact hix)]
  by_cases h : i < keep
  · rw [if_pos h, if_pos h,
      getD_ApplyPadding _ _ _ (by rw [length_PaddingsFromLengths]; omega)
        (by rw [length_reverseSequence]; omega),
      getD_PaddingsFromLengths _ _ _ (by omega),
      if_neg (by simp only [decide_eq_true_eq]; omega),
      getD_reverseSequence (trim + keep) x _ htk (by omega),
      if_pos (by omega),
      show trim + keep - 1 - (keep - 1 - i) = trim + i from by omega]
  · rw [if_neg h, if_neg h,
      getD_ApplyPadding _ _ _ (by rw [length_PaddingsFromLengths]; exact hix)
        (by rw [length_reverseSequence]; exact hix),
      getD_PaddingsFromLengths _ _ _ hix,
      if_pos (by simp only [decide_eq_true_eq]; omega)]

theorem LFP_append (a b : List Bool) :
    LengthsFromPaddings (a ++ b)
      = LengthsFromPaddings a + LengthsFromPaddings b := by
  simp [LengthsFromPaddings, List.filter_append]

theorem LFP_replicate_true (k : ℕ) :
    LengthsFromPaddings (List.replicate k true) = 0 := by
  simp [LengthsFromPaddings, List.filter_replicate]

theorem LFP_replicate_false (k : ℕ) :
    LengthsFromPaddings (List.replicate k false) = k := by
  simp [LengthsFromPaddings, List.filter_replicate]

theorem take_PaddingsFromLengths (len maxlen k : ℕ) (hk : k ≤ len)
    (hm : k ≤ maxlen) :
    (PaddingsFromLengths len maxlen).take k = List.replicate k false := by
  apply List.ext_getElem
  · rw [List.length_take, length_PaddingsFromLengths, List.length_replicate]
    omega
  · intro n h1 h2
    have hn : n < k := by simpa using h2
    rw [← List.getD_eq_getElem _ false h1, ← List.getD_eq_getElem _ false h2,
      getD_take_lt _ _ _ hn, getD_PaddingsFromLengths _ _ _ (by omega),
      getD_replicate_eq, if_pos hn]
    exact decide_eq_false (by omega)

theorem concat3_getD_zero (a b : List ℚ) (k u : ℕ)
    (hu : a.length + b.length ≤ u) :
    (a ++ b ++ List.replicate k (0 : ℚ)).getD u 0 = 0 := by
  rw [List.append_assoc, getD_append_ge _ _ u (by omega),
    getD_append_ge _ _ _ (by omega), getD_replicate_eq]
  simp

theorem concat3_getD_true (a b : List Bool) (k u : ℕ)
    (hu : a.length + b.length ≤ u) (hk : u < a.length + b.length + k) :
    (a ++ b ++ List.replicate k true).getD u false = true := by
  rw [List.append_assoc, getD_append_ge _ _ u (by omega),
    getD_append_ge _ _ _ (by omega), getD_replicate_eq,
    if_pos (by omega)]

theorem windowed_getD_zero (Wn : ℕ) (C : List ℚ) (P : List Bool) (u : ℕ)
    (hP : P.length = C.length) (hCz : C.getD u 0 = 0)
    (hPt : u < C.length → P.getD u false = true) :
    (WindowedCumSum Wn P C).getD u 0 = 0 := by
  by_cases hu : u < C.length
  · have hPu := hPt hu
    rw [getD_WindowedCumSum Wn P C u hP hu, hCz,
      if_neg (by rw [hPu]; simp), sub_zero]
  · rw [List.getD_eq_default _ _ (by
      rw [length_WindowedCumSum Wn P C hP]; omega)]

theorem TrimState_eq_B1 (C : List ℚ) (trim keep out : ℕ)
    (hto : trim + out ≤ C.length) (hkeep : keep ≤ out)
    (hCz : ∀ u, trim + keep ≤ u → C.getD u 0 = 0) :
    TrimFromTheFront C trim keep out = TrimFromTheFrontB1 C trim out := by
  apply List.ext_getElem
  · rw [length_TrimFromTheFront]
    simp only [TrimFromTheFrontB1, List.length_take, List.length_drop]
    omega
  · intro n h1 h2
    have hn : n < out := by rw [length_TrimFromTheFront] at h1; omega
    rw [← List.getD_eq_getElem _ 0 h1, ← List.getD_eq_getElem _ 0 h2,
      getD_TrimFromTheFront C trim keep out n (by omega) hn (by omega),
      TrimFromTheFrontB1, getD_take_lt _ _ _ hn, getD_drop_add]
    by_cases h : n < keep
    · rw [if_pos h]
    · rw [if_neg h, hCz (trim + n) (by omega)]

theorem CWCS_General_B1 (W : ℕ) (series : List Step) (pads : List Bool)
    (cached : List ℚ) (cnt lastIndex : ℕ)
    (hlen : cached.length = W) (hcnt : cnt ≤ W)
    (hL : LengthsFromPaddings pads ≤ series.length) :
    ComputeWindowedCumSumGeneral W series pads cached
        (PaddingsFromLengths cnt W) cnt lastIndex (LengthsFromPaddings pads)
      = ComputeWindowedCumSumB1 W series pads cached
          (PaddingsFromLengths cnt W) cnt lastIndex (LengthsFromPaddings pads) := by
  have hLp : LengthsFromPaddings pads ≤ pads.length := LengthsFromPaddings_le pads
  have hlx : LengthsFromPaddings (PaddingsFromLengths cnt W) = cnt := by
    rw [LengthsFromPaddings_PaddingsFromLengths]
    omega
  have hcur : ((cumsum (series.map stepSum)).map
      (· + cached.getD lastIndex 0)).length = series.length := by
    rw [List.length_map, length_cumsum, List.length_map]
  simp only [ComputeWindowedCumSumGeneral, ComputeWindowedCumSumB1,
    ConcatenatePaddedSequences, hlx, hcur, hlen]
  rw [Prod.mk.injEq]
  refine ⟨?_, rfl⟩
  apply TrimState_eq_B1
  · simp only [WindowedCumSum, List.length_zipWith, List.length_map,
      length_roll, length_ApplyPadding, length_PaddingsFromLengths,
      List.length_append, List.length_take, List.length_replicate,
      length_cumsum, hlen, hcur]
    omega
  · exact hL
  · intro u hu
    apply windowed_getD_zero
    · simp only [List.length_append, List.length_take, List.length_replicate,
        length_PaddingsFromLengths, hlen, hcur]
      omega
    · apply concat3_getD_zero
      simp only [List.length_take, hlen, hcur]
      omega
    · intro hu2
      apply concat3_getD_true
      · simp only [List.length_take, length_PaddingsFromLengths]
        omega
      · simp only [List.length_append, List.length_take, List.length_replicate,
          length_PaddingsFromLengths, hlen, hcur] at hu2 ⊢
        omega

theorem length_CWCSB1_out (W : ℕ) (series : List Step) (pads : List Bool)
    (cached : List ℚ) (cnt lastIndex curLen : ℕ)
    (hlen : cached.length = W) (hcnt : cnt ≤ W)
    (hcu : curLen ≤ series.length) (hcp : curLen ≤ pads.length) :
    (ComputeWindowedCumSumB1 W series pads cached (PaddingsFromLengths cnt W)
        cnt lastIndex curLen).1.length = series.length := by
  simp only [ComputeWindowedCumSumB1, TrimFromTheFrontB1, WindowedCumSum,
    List.length_take, List.length_drop, List.length_zipWith, List.length_map,
    length_roll, length_ApplyPadding, length_PaddingsFromLengths,
    List.length_append, List.length_replicate, length_cumsum, hlen]
  omega

/-! ### Claim C6 -/

unseal Rat.inv Rat.mul Rat.add Rat.sub in
/-- C6 (counterexample): on a batch-1 chunk whose padding is interior
(`[(pad, [1]), (valid, [2])]`) with a full cache of one valid step, the
fast batch-size-1 path and the general path of `_StreamWindowedMoments`
do not return identical results: the outputs and the updated counts
agree, but the dead (invalid) slots of the cached state differ. -/
theorem claim_C6_counterexample :
    StreamWindowedMoments 2 1 [(true, [1]), (false, [2])] ⟨[4, 6], [1, 2], 1⟩
      ≠ StreamWindowedMomentsGeneral 2 1 [(true, [1]), (false, [2])]
          ⟨[4, 6], [1, 2], 1⟩ := by
  decide

/-- C6 (amended): on a well-formed state (caches of length `window_size`
holding at most `window_size` valid steps), the batch-size-1 fast path and
the general path return the same moment outputs and the same updated
count; and when the chunk's padding only forms a trailing suffix the two
paths agree on the entire result, updated caches included. -/
theorem claim_C6 (g W : ℕ) (series : List Step) (st : SWState)
    (hlenS : st.cachedSums.length = W) (hlenV : st.cachedVars.length = W)
    (hcnt : st.cachedCount ≤ W) :
    (StreamWindowedMoments W g series st).1
        = (StreamWindowedMomentsGeneral W g series st).1
    ∧ (StreamWindowedMoments W g series st).2.cachedCount
        = (StreamWindowedMomentsGeneral W g series st).2.cachedCount
    ∧ (padsOf series
          = PaddingsFromLengths (LengthsFromPaddings (padsOf series))
              series.length →
        StreamWindowedMoments W g series st
          = StreamWindowedMomentsGeneral W g series st) := by
  have hLp : LengthsFromPaddings (padsOf series) ≤ (padsOf series).length :=
    LengthsFromPaddings_le (padsOf series)
  have hLpads : LengthsFromPaddings (padsOf series) ≤ series.length := by
    simp only [padsOf, List.length_map] at hLp
    exact hLp
  have hsq : (List.zipWith (fun (s : Step) m => (s.1, s.2.map (fun x => (x - m) ^ 2))) series (List.zipWith (fun s c => s / max (c * (g : ℚ)) 1) (ComputeWindowedCumSumB1 W series (padsOf series) st.cachedSums (PaddingsFromLengths st.cachedCount W) st.cachedCount (st.cachedCount - 1) (LengthsFromPaddings (padsOf series))).1 (GetUpdatedCount W st.cachedCount (padsOf series)))).length = series.length := by
    rw [List.length_zipWith, List.length_zipWith,
      length_CWCSB1_out W series (padsOf series) st.cachedSums st.cachedCount
        (st.cachedCount - 1) (LengthsFromPaddings (padsOf series)) hlenS hcnt
        hLpads (LengthsFromPaddings_le _),
      length_GetUpdatedCount]
    simp only [padsOf, List.length_map]
    omega
  have hLsq : LengthsFromPaddings (padsOf series) ≤ (List.zipWith (fun (s : Step) m => (s.1, s.2.map (fun x => (x - m) ^ 2))) series (List.zipWith (fun s c => s / max (c * (g : ℚ)) 1) (ComputeWindowedCumSumB1 W series (padsOf series) st.cachedSums (PaddingsFromLengths st.cachedCount W) st.cachedCount (st.cachedCount - 1) (LengthsFromPaddings (padsOf series))).1 (GetUpdatedCount W st.cachedCount (padsOf series)))).length := by
    rw [hsq]
    exact hLpads
  have hr1 := CWCS_General_B1 W series (padsOf series) st.cachedSums
      st.cachedCount (st.cachedCount - 1) hlenS hcnt hLpads
  have hr2 := CWCS_General_B1 W (List.zipWith (fun (s : Step) m => (s.1, s.2.map (fun x => (x - m) ^ 2))) series (List.zipWith (fun s c => s / max (c * (g : ℚ)) 1) (ComputeWindowedCumSumB1 W series (padsOf series) st.cachedSums (PaddingsFromLengths st.cachedCount W) st.cachedCount (st.cachedCount - 1) (LengthsFromPaddings (padsOf series))).1 (GetUpdatedCount W st.cachedCount (padsOf series)))) (padsOf series) st.cachedVars
      st.cachedCount (st.cachedCount - 1) hlenV hcnt hLsq
  refine ⟨?_, ?_, ?_⟩
  · simp only [StreamWindowedMoments, StreamWindowedMomentsGeneral]
    rw [hr1, hr2]
  · simp only [StreamWindowedMoments, StreamWindowedMomentsGeneral]
    rw [hr1]
  · intro hsufc
    have hpadstake : (padsOf series).take (LengthsFromPaddings (padsOf series))
        = List.replicate (LengthsFromPaddings (padsOf series)) false := by
      conv_lhs => rw [hsufc]
      rw [LengthsFromPaddings_PaddingsFromLengths, min_eq_left hLpads,
        take_PaddingsFromLengths _ _ _ le_rfl hLpads]
    have hinput : LengthsFromPaddings ((PaddingsFromLengths st.cachedCount W).take st.cachedCount ++ (padsOf series).take (LengthsFromPaddings (padsOf series)) ++ List.replicate (W + series.length - st.cachedCount - LengthsFromPaddings (padsOf series)) true)
        = st.cachedCount + LengthsFromPaddings (padsOf series) := by
      rw [LFP_append, LFP_append,
        take_PaddingsFromLengths _ _ _ le_rfl hcnt, hpadstake,
        LFP_replicate_false, LFP_replicate_false, LFP_replicate_true]
      omega
    have hpl : (padsOf series).length = series.length := by
      simp [padsOf]
    have hproj2 : (ComputeWindowedCumSumB1 W series (padsOf series) st.cachedSums (PaddingsFromLengths st.cachedCount W) st.cachedCount (st.cachedCount - 1) (LengthsFromPaddings (padsOf series))).2.2
        = (PaddingsFromLengths st.cachedCount W).take st.cachedCount ++ (padsOf series).take (LengthsFromPaddings (padsOf series)) ++ List.replicate (W + series.length - st.cachedCount - LengthsFromPaddings (padsOf series)) true := rfl
    have hproj1 : (ComputeWindowedCumSumB1 W series (padsOf series) st.cachedSums (PaddingsFromLengths st.cachedCount W) st.cachedCount (st.cachedCount - 1) (LengthsFromPaddings (padsOf series))).2.1
        = st.cachedSums.take st.cachedCount ++ ((cumsum (series.map stepSum)).map (· + st.cachedSums.getD (st.cachedCount - 1) 0)).take (LengthsFromPaddings (padsOf series)) ++ List.replicate (W + series.length - st.cachedCount - LengthsFromPaddings (padsOf series)) 0 := rfl
    have hproj1v : (ComputeWindowedCumSumB1 W (List.zipWith (fun (s : Step) m => (s.1, s.2.map (fun x => (x - m) ^ 2))) series (List.zipWith (fun s c => s / max (c * (g : ℚ)) 1) (ComputeWindowedCumSumB1 W series (padsOf series) st.cachedSums (PaddingsFromLengths st.cachedCount W) st.cachedCount (st.cachedCount - 1) (LengthsFromPaddings (padsOf series))).1 (GetUpdatedCount W st.cachedCount (padsOf series)))) (padsOf series) st.cachedVars (PaddingsFromLengths st.cachedCount W) st.cachedCount (st.cachedCount - 1) (LengthsFromPaddings (padsOf series))).2.1
        = st.cachedVars.take st.cachedCount ++ ((cumsum ((List.zipWith (fun (s : Step) m => (s.1, s.2.map (fun x => (x - m) ^ 2))) series (List.zipWith (fun s c => s / max (c * (g : ℚ)) 1) (ComputeWindowedCumSumB1 W series (padsOf series) st.cachedSums (PaddingsFromLengths st.cachedCount W) st.cachedCount (st.cachedCount - 1) (LengthsFromPaddings (padsOf series))).1 (GetUpdatedCount W st.cachedCount (padsOf series)))).map stepSum)).map (· + st.cachedVars.getD (st.cachedCount - 1) 0)).take (LengthsFromPaddings (padsOf series)) ++ List.replicate (W + (List.zipWith (fun (s : Step) m => (s.1, s.2.map (fun x => (x - m) ^ 2))) series (List.zipWith (fun s c => s / max (c * (g : ℚ)) 1) (ComputeWindowedCumSumB1 W series (padsOf series) st.cachedSums (PaddingsFromLengths st.cachedCount W) st.cachedCount (st.cachedCount - 1) (LengthsFromPaddings (padsOf series))).1 (GetUpdatedCount W st.cachedCount (padsOf series)))).length - st.cachedCount - LengthsFromPaddings (padsOf series)) 0 := rfl
    simp only [StreamWindowedMoments, StreamWindowedMomentsGeneral]
    rw [hr1, hr2, hproj2, hproj1, hproj1v]
    rw [hinput, Prod.mk.injEq]
    refine ⟨rfl, ?_⟩
    rw [SWState.mk.injEq]
    refine ⟨?_, ?_, rfl⟩
    · refine (TrimState_eq_B1 _ _ _ _ ?_ ?_ ?_).symm
      · simp only [List.length_append, List.length_take, List.length_drop, List.length_replicate, List.length_map, length_cumsum, hsq, hlenS, hlenV, hpl]
        omega
      · omega
      · intro u hu
        apply concat3_getD_zero
        simp only [List.length_append, List.length_take, List.length_drop, List.length_replicate, List.length_map, length_cumsum, hsq, hlenS, hlenV, hpl]
        omega
    · refine (TrimState_eq_B1 _ _ _ _ ?_ ?_ ?_).symm
      · simp only [List.length_append, List.length_take, List.length_drop, List.length_replicate, List.length_map, length_cumsum, hsq, hlenS, hlenV, hpl]
        omega
      · omega
      · intro u hu
        apply concat3_getD_zero
        simp only [List.length_append, List.length_take, List.length_drop, List.length_replicate, List.length_map, length_cumsum, hsq, hlenS, hlenV, hpl]
        omega

/-- C6 (witness): the amended theorem applied to one valid step from the
zero state with window size 2. -/
theorem claim_C6_witness :
    ((StreamWindowedMoments 2 1 [(false, [1])] (swZero 2)).1
        = (StreamWindowedMomentsGeneral 2 1 [(false, [1])] (swZero 2)).1)
    ∧ ((StreamWindowedMoments 2 1 [(false, [1])] (swZero 2)).2.cachedCount
        = (StreamWindowedMomentsGeneral 2 1 [(false, [1])] (swZero 2)).2.cachedCount)
    ∧ (padsOf [((false : Bool), [(1 : ℚ)])]
          = PaddingsFromLengths
              (LengthsFromPaddings (padsOf [((false : Bool), [(1 : ℚ)])])) 1 →
        StreamWindowedMoments 2 1 [(false, [1])] (swZero 2)
          = StreamWindowedMomentsGeneral 2 1 [(false, [1])] (swZero 2)) :=
  claim_C6 1 2 [(false, [1])] (swZero 2) (by decide) (by decide) (by decide)

/-! ### Claim C1 -/

unseal Rat.inv Rat.mul Rat.add Rat.sub in
/-- C1 (counterexample): with window size 2 and the padded sequence
`[1, (pad), 3]` split into singleton chunks, the windowed streaming
estimator does not reproduce the windowed batch estimator at every
global position (they disagree at positions 1 and 2, because the batch
windowing keys the window-shift mask off each position's own padding
flag while the stream cache only retains valid steps). -/
theorem claim_C1_counterexample :
    (streamWindowedChunks 2 1
        [[(false, [1])], [(true, [5])], [(false, [3])]] (swZero 2)).1
      ≠ ComputeMoments 1 2 [(false, [1]), (true, [5]), (false, [3])] := by
  decide

/-- C1 (amended): splitting a sequence into chunks and feeding them through
the streaming estimators from `zero_state` reproduces the batch
`ComputeMoments`: exactly and at every global position for the unwindowed
variant, whatever the padding pattern; and at every non-padded global
position for the windowed variant provided all padding forms a suffix of
the concatenated sequence. -/
theorem claim_C1 (g W : ℕ) (chunks : List (List Step)) :
    (streamChunks g chunks smZero).1 = ComputeMoments g 0 chunks.flatten
    ∧ (0 < W → SuffixPadded chunks.flatten →
        ∀ t, t < validLen chunks.flatten →
          (streamWindowedChunks W g chunks (swZero W)).1.getD t (0, 0)
            = (ComputeMoments g W chunks.flatten).getD t (0, 0)) := by
  constructor
  · have h := streamChunks_spec g chunks.flatten chunks 0
      (by rw [List.drop_zero]) (Nat.zero_le _)
    rw [prefixState_zero] at h
    rw [h, List.drop_zero]
  · intro hW hsuf t ht
    obtain ⟨hlen, hval, hstate⟩ := streamWindowedChunks_spec g W
      chunks.flatten hW hsuf chunks 0 (by rw [List.drop_zero]) (Nat.zero_le _)
    rw [wPrefixState_zero] at hval
    have h := hval t (by omega)
    rw [Nat.zero_add] at h
    exact h

/-- C1 (witness): the amended theorem applied, with its windowed-clause
hypotheses discharged, to the interior-padded sequence `[1, (pad), 3]`
split as `[1, (pad)] ++ [3]` for the unwindowed clause, and to the
unpadded sequence `[1, 2, 3]` split as `[1] ++ [2, 3]` with window size 2
for the windowed clause. -/
theorem claim_C1_witness :
    ((streamChunks 1 [[(false, [1]), (true, [5])], [(false, [3])]] smZero).1
        = ComputeMoments 1 0
            [[(false, [1]), (true, [5])], [(false, [3])]].flatten)
    ∧ ∀ t, t < validLen [[(false, [1])], [(false, [2]), (false, [3])]].flatten →
        (streamWindowedChunks 2 1
            [[(false, [1])], [(false, [2]), (false, [3])]] (swZero 2)).1.getD t (0, 0)
          = (ComputeMoments 1 2
              [[(false, [1])], [(false, [2]), (false, [3])]].flatten).getD t (0, 0) :=
  ⟨(claim_C1 1 2 [[(false, [1]), (true, [5])], [(false, [3])]]).1,
   (claim_C1 1 2 [[(false, [1])], [(false, [2]), (false, [3])]]).2
     (by decide) (by simp only [SuffixPadded]; decide)⟩

/-! ### Claim C5 -/

unseal Rat.inv Rat.mul Rat.add Rat.sub in
/-- C5 (counterexample): a window that is entirely padding does not yield
mean 0 when valid data precedes it: on `[(valid, 2), (pad), (pad)]` with
window size 2, the window at position 2 covers only padded steps, yet
`ComputeMoments` returns mean 2 there -- the window-shift mask is keyed
off that position's own padding flag, so the whole-prefix statistics are
retained, not zeroed. -/
theorem claim_C5_counterexample :
    (ComputeMoments 1 2 [(false, [2]), (true, [5]), (true, [7])]).getD 2 (0, 0)
      ≠ (0, 0) := by
  decide

/-- C5 (amended): on an input that is entirely padding, the batch
estimator (with or without a window), the unwindowed streaming estimator
and the windowed streaming estimator all return mean 0 and variance 0 at
every position; and on every input whatsoever the count denominator is
clamped to at least 1, so no division by zero can occur.  (A fully padded
window that is merely preceded by valid data retains the cumulative
prefix statistics instead.) -/
theorem claim_C5 (g W : ℕ) (S : List Step) (hW : 0 < W)
    (hpad : ∀ s ∈ S, s.1 = true) :
    (∀ W0 t, (ComputeMoments g W0 S).getD t (0, 0) = (0, 0))
    ∧ (∀ t, (StreamMoments g S smZero).1.getD t (0, 0) = (0, 0))
    ∧ (∀ t, (StreamWindowedMoments W g S (swZero W)).1.getD t (0, 0) = (0, 0))
    ∧ (∀ (S2 : List Step) (W0 t : ℕ), 1 ≤ bCnt g W0 S2 t) := by
  have hcumS : ∀ u, cumS S u = 0 := by
    intro u
    rw [cumS]
    apply List.sum_eq_zero
    intro x hx
    obtain ⟨s, hs, rfl⟩ := List.mem_map.mp hx
    rw [stepSum, hpad s (List.mem_of_mem_take hs)]
    simp
  have hbSum : ∀ W0 t, bSum W0 S t = 0 := by
    intro W0 t
    simp [bSum, subQ, hcumS]
  have hmean0 : ∀ W0 t, bMean g W0 S t = 0 := by
    intro W0 t
    simp [bMean, hbSum]
  have hq0 : ∀ W0 u, qAt g W0 S u = 0 := by
    intro W0 u
    by_cases hu : u < S.length
    · have hf : (stepAt S u).1 = true := by
        rw [stepAt, List.getD_eq_getElem _ _ hu]
        exact hpad _ (List.getElem_mem hu)
      rw [qAt, stepSq, hf]
      simp
    · rw [qAt, stepAt, List.getD_eq_default _ _ (by omega), stepSq]
      simp
  have hqcum0 : ∀ W0 u, qcum g W0 S u = 0 := by
    intro W0 u
    rw [qcum]
    apply List.sum_eq_zero
    intro x hx
    obtain ⟨i, hi, rfl⟩ := List.mem_map.mp hx
    exact hq0 W0 i
  have hvar0 : ∀ W0 t, bVar g W0 S t = 0 := by
    intro W0 t
    simp [bVar, subQ, hqcum0]
  have hbatch : ∀ W0 t, (ComputeMoments g W0 S).getD t (0, 0) = (0, 0) := by
    intro W0 t
    by_cases ht : t < S.length
    · rw [getD_ComputeMoments g W0 S t ht, hmean0 W0 t, hvar0 W0 t]
    · rw [List.getD_eq_default _ _ (by rw [length_ComputeMoments]; omega)]
  refine ⟨hbatch, ?_, ?_, ?_⟩
  · intro t
    obtain ⟨hout, hst⟩ := StreamMoments_spec g S 0 S
      (by rw [List.drop_zero, List.take_length]) (by omega)
    rw [prefixState_zero] at hout
    rw [hout, List.drop_zero, ← length_ComputeMoments g 0 S, List.take_length,
      hbatch]
  · intro t
    have hpads : padsOf S = List.replicate S.length true := by
      apply List.ext_getElem
      · simp [padsOf]
      · intro n h1 h2
        simp only [padsOf, List.getElem_map, List.getElem_replicate]
        exact hpad _ (List.getElem_mem _)
    have hv0 : validLen S = 0 := by
      rw [validLen, hpads, LengthsFromPaddings]
      simp
    have hsuf : SuffixPadded S := by
      rw [SuffixPadded, hv0, hpads]
      apply List.ext_getElem
      · simp [PaddingsFromLengths]
      · intro n h1 h2
        simp [PaddingsFromLengths]
    obtain ⟨hval, hinval, hlen1, hst⟩ := StreamWindowedMoments_spec g W S hW
      hsuf 0 S (by rw [List.drop_zero, List.take_length]) (by omega)
    rw [wPrefixState_zero] at hinval hlen1
    by_cases ht : t < S.length
    · exact hinval t ht (by omega)
    · rw [List.getD_eq_default _ _ (by rw [hlen1]; omega)]
  · intro S2 W0 t
    rw [bCnt]
    exact le_max_right _ _

/-- C5 (witness): the theorem applied to the fully padded one-step input
`[(pad, [7])]` with window size 2 and group size 1. -/
theorem claim_C5_witness :
    (∀ W0 t, (ComputeMoments 1 W0 [(true, [7])]).getD t (0, 0) = (0, 0))
    ∧ (∀ t, (StreamMoments 1 [(true, [7])] smZero).1.getD t (0, 0) = (0, 0))
    ∧ (∀ t,
        (StreamWindowedMoments 2 1 [(true, [7])] (swZero 2)).1.getD t (0, 0)
          = (0, 0))
    ∧ (∀ (S2 : List Step) (W0 t : ℕ), 1 ≤ bCnt 1 W0 S2 t) :=
  claim_C5 1 2 [(true, [7])] (by decide) (by decide)

/-! ### Claim C10: frame facts of FProp / StreamStep -/

theorem flatten_chunkList (g : ℕ) (hg : 0 < g) (l : List ℚ) :
    (chunkList g l).flatten = l := by
  generalize hn : l.length = n
  induction n using Nat.strong_induction_on generalizing l with
  | _ n ih =>
    match l, hn with
    | [], _ =>
      rw [chunkList]
      rfl
    | x :: xs, hn =>
      rw [chunkList, dif_neg (by omega), List.flatten_cons,
        ih ((x :: xs).drop g).length (by
          simp only [List.length_drop, List.length_cons] at hn ⊢
          omega) _ rfl]
      exact List.take_append_drop g (x :: xs)

theorem flatten_length_normGroups (eps : ℚ) (rsq : ℚ → ℚ) (mom : ℕ → ℚ × ℚ)
    (k : ℕ) (gs : List (List ℚ)) :
    ((normGroups eps rsq mom k gs).flatten).length = gs.flatten.length := by
  induction gs generalizing k with
  | nil => rfl
  | cons grp rest ih =>
    simp only [normGroups, List.flatten_cons, List.length_append,
      List.length_map]
    rw [ih]

theorem length_normRows (eps : ℚ) (rsq : ℚ → ℚ) (mom : ℕ → ℕ → ℚ × ℚ)
    (t : ℕ) (rows : List (List (List ℚ))) :
    (normRows eps rsq mom t rows).length = rows.length := by
  induction rows generalizing t with
  | nil => rfl
  | cons r rest ih =>
    simp only [normRows, List.length_cons]
    rw [ih]

theorem normRows_flatlen (eps : ℚ) (rsq : ℚ → ℚ) (mom : ℕ → ℕ → ℚ × ℚ)
    (t : ℕ) (rows : List (List (List ℚ))) :
    (normRows eps rsq mom t rows).map (fun r => r.flatten.length)
      = rows.map (fun r => r.flatten.length) := by
  induction rows generalizing t with
  | nil => rfl
  | cons r rest ih =>
    simp only [normRows, List.map_cons]
    rw [ih, flatten_length_normGroups]

theorem shape_normalizeExample (eps : ℚ) (rsq : ℚ → ℚ) (gamma beta : List ℚ)
    (g : ℕ) (mom : ℕ → ℕ → ℚ × ℚ) (ex : List (List ℚ)) (dim : ℕ)
    (hg : 0 < g) (hrow : ∀ row ∈ ex, row.length = dim)
    (hgamma : gamma.length = dim) (hbeta : beta.length = dim) :
    (normalizeExample eps rsq gamma beta g mom ex).map List.length
      = ex.map List.length := by
  simp only [normalizeExample]
  apply List.ext_getElem
  · simp only [List.length_map, length_normRows]
  · intro n h1 h2
    have hn : n < ex.length := by simpa using h2
    have hnr : n < (normRows eps rsq mom 0 (ex.map (chunkList g))).length := by
      rw [length_normRows, List.length_map]
      exact hn
    have hflat :
        ((normRows eps rsq mom 0 (ex.map (chunkList g))).map
            (fun r => r.flatten.length)).getD n 0
          = (((ex.map (chunkList g))).map
              (fun r => r.flatten.length)).getD n 0 := by
      rw [normRows_flatlen]
    rw [List.getD_eq_getElem _ _ (by rw [List.length_map]; exact hnr),
      List.getD_eq_getElem _ _ (by simp only [List.length_map]; exact hn),
      List.getElem_map, List.getElem_map, List.getElem_map,
      flatten_chunkList g hg] at hflat
    simp only [List.getElem_map, List.getElem_zipWith]
    rw [List.length_zipWith, hflat, List.length_zip, hgamma, hbeta, min_self,
      hrow _ (List.getElem_mem _), min_self]

/-- C10: `FProp` and both `StreamStep` variants return the `paddings`
argument unchanged, and the normalized output has exactly the shape of the
inputs, whenever the configuration is coherent (positive group count,
rows of width `dim`, `gamma`/`beta` of width `dim`, one padding row and
one state row per example). -/
theorem claim_C10 (wsize g : ℕ) (eps : ℚ) (rsq : ℚ → ℚ)
    (gamma beta : List ℚ) (dim : ℕ) (inputs : List (List (List ℚ)))
    (paddings : List (List Bool)) (statesU : List (List SMState))
    (statesW : List (List SWState)) (hg : 0 < g)
    (hrow : ∀ ex ∈ inputs, ∀ row ∈ ex, row.length = dim)
    (hgamma : gamma.length = dim) (hbeta : beta.length = dim)
    (hp : paddings.length = inputs.length)
    (hsU : statesU.length = inputs.length)
    (hsW : statesW.length = inputs.length) :
    ((GroupNormFProp wsize g eps rsq gamma beta inputs paddings).2 = paddings
      ∧ shape3 (GroupNormFProp wsize g eps rsq gamma beta inputs paddings).1
          = shape3 inputs)
    ∧ ((GroupNormStreamStepU g eps rsq gamma beta inputs paddings statesU).2.1
          = paddings
      ∧ shape3
          (GroupNormStreamStepU g eps rsq gamma beta inputs paddings statesU).1
          = shape3 inputs)
    ∧ ((GroupNormStreamStepW wsize g eps rsq gamma beta inputs paddings
            statesW).2.1 = paddings
      ∧ shape3
          (GroupNormStreamStepW wsize g eps rsq gamma beta inputs paddings
            statesW).1
          = shape3 inputs) := by
  refine ⟨⟨rfl, ?_⟩, ⟨rfl, ?_⟩, ⟨rfl, ?_⟩⟩
  · simp only [GroupNormFProp, shape3]
    apply List.ext_getElem
    · simp only [List.length_map, List.length_zipWith, hp, min_self]
    · intro n h1 h2
      have hn : n < inputs.length := by simpa using h2
      simp only [List.getElem_map, List.getElem_zipWith]
      exact shape_normalizeExample eps rsq gamma beta g _ _ dim hg
        (hrow _ (List.getElem_mem _)) hgamma hbeta
  · simp only [GroupNormStreamStepU, shape3]
    apply List.ext_getElem
    · simp only [List.length_map, List.length_zipWith, List.length_zip,
        hp, hsU, min_self]
    · intro n h1 h2
      have hn : n < inputs.length := by simpa using h2
      simp only [List.getElem_map, List.getElem_zipWith, List.getElem_zip]
      exact shape_normalizeExample eps rsq gamma beta g _ _ dim hg
        (hrow _ (List.getElem_mem _)) hgamma hbeta
  · simp only [GroupNormStreamStepW, shape3]
    apply List.ext_getElem
    · simp only [List.length_map, List.length_zipWith, List.length_zip,
        hp, hsW, min_self]
    · intro n h1 h2
      have hn : n < inputs.length := by simpa using h2
      simp only [List.getElem_map, List.getElem_zipWith, List.getElem_zip]
      exact shape_normalizeExample eps rsq gamma beta g _ _ dim hg
        (hrow _ (List.getElem_mem _)) hgamma hbeta

/-- C10 (witness): the theorem applied to a one-example, one-step,
one-feature batch. -/
theorem claim_C10_witness :
    ((GroupNormFProp 2 1 1 (fun _ => 1) [0] [0] [[[5]]] [[false]]).2 = [[false]]
      ∧ shape3 (GroupNormFProp 2 1 1 (fun _ => 1) [0] [0] [[[5]]] [[false]]).1
          = shape3 [[[5]]])
    ∧ ((GroupNormStreamStepU 1 1 (fun _ => 1) [0] [0] [[[5]]] [[false]]
            [[smZero]]).2.1 = [[false]]
      ∧ shape3 (GroupNormStreamStepU 1 1 (fun _ => 1) [0] [0] [[[5]]] [[false]]
            [[smZero]]).1 = shape3 [[[5]]])
    ∧ ((GroupNormStreamStepW 2 1 1 (fun _ => 1) [0] [0] [[[5]]] [[false]]
            [[swZero 2]]).2.1 = [[false]]
      ∧ shape3 (GroupNormStreamStepW 2 1 1 (fun _ => 1) [0] [0] [[[5]]] [[false]]
            [[swZero 2]]).1 = shape3 [[[5]]]) :=
  claim_C10 2 1 1 (fun _ => 1) [0] [0] 1 [[[5]]] [[false]] [[smZero]]
    [[swZero 2]] (by decide) (by decide) (by decide) (by decide) (by decide)
    (by decide) (by decide)

/-! ### Claim theorems (first group) -/

unseal Rat.inv Rat.mul Rat.add Rat.sub in
/-- C2 (counterexample): on the input `[[1,2,3,4]]` with window size 2 and
`cumulative_axis=1`, the variance that `ComputeMoments` produces at `t=1`
is not the claimed 0.25: each position's squared deviation is taken
against that position's own windowed mean, giving
`((1-1)^2 + (2-1.5)^2) / 2 = 0.125`. -/
theorem claim_C2_counterexample :
    ((ComputeMoments 1 2
        [(false, [1]), (false, [2]), (false, [3]), (false, [4])]).getD 1 (0, 0)).2
      ≠ (1 / 4 : ℚ) := by
  decide

unseal Rat.inv Rat.mul Rat.add Rat.sub in
/-- C2 (amended): on the input `[[1,2,3,4]]` (batch 1, time 4, feature 1),
no padding, `cumulative_axis=1`, `cumsum_window_size=2`, the per-step
windowed means are 1, 1.5, 2.5, 3.5 and the per-step variances are
0, 0.125, 0.25, 0.25. -/
theorem claim_C2 :
    ComputeMoments 1 2 [(false, [1]), (false, [2]), (false, [3]), (false, [4])]
      = [(1, 0), (3 / 2, 1 / 8), (5 / 2, 1 / 4), (7 / 2, 1 / 4)] := by
  decide

/-- C3: `_WindowedCumSum` on a cumulative-sum series `x` with a window
`W` already clamped to the sequence length returns, at every non-padded
position `t`, the value `x[t] - x[t-W]` when `W ≤ t` and `x[t]` when
`t < W`; at padded positions the shifted term is zeroed before the
subtraction, leaving `x[t]`. -/
theorem claim_C3 (W : ℕ) (pads : List Bool) (x : List ℚ) (t : ℕ)
    (hlen : pads.length = x.length) (hWpos : 0 < W) (hWle : W ≤ x.length)
    (ht : t < x.length) :
    (WindowedCumSum W pads x).getD t 0 =
      if pads.getD t false = true then x.getD t 0
      else if W ≤ t then x.getD t 0 - x.getD (t - W) 0
      else x.getD t 0 := by
  rw [getD_WindowedCumSum W pads x t hlen ht]
  by_cases hp : pads.getD t false = true
  · rw [if_pos hp, if_neg (fun hc => Bool.noConfusion (hp.symm.trans hc.2)),
      sub_zero]
  · have hp' : pads.getD t false = false := by
      cases h : pads.getD t false with
      | false => rfl
      | true => exact absurd h hp
    rw [if_neg hp]
    by_cases hW : W ≤ t
    · rw [if_pos ⟨hW, hp'⟩, if_pos hW]
    · rw [if_neg (fun hc => hW hc.1), if_neg hW, sub_zero]

/-- C3 (witness): the characterization evaluated at a concrete input. -/
theorem claim_C3_witness :
    (WindowedCumSum 1 [false, false] [1, 3]).getD 1 0 =
      if ([false, false] : List Bool).getD 1 false = true then
        ([1, 3] : List ℚ).getD 1 0
      else if 1 ≤ 1 then ([1, 3] : List ℚ).getD 1 0 - ([1, 3] : List ℚ).getD (1 - 1) 0
      else ([1, 3] : List ℚ).getD 1 0 :=
  claim_C3 1 [false, false] [1, 3] 1 (by decide) (by decide) (by decide) (by decide)

/-- C4: replacing the values at padded positions of the input by arbitrary
other values (of arbitrary feature extent) changes neither the means nor
the variances returned by `ComputeMoments`, windowed or not: a padded
position's contribution to every reduction is exactly zero. -/
theorem claim_C4 (g W0 : ℕ) (S S' : List Step)
    (hlen : S'.length = S.length)
    (hpads : ∀ t, t < S.length → (stepAt S t).1 = (stepAt S' t).1)
    (hvals : ∀ t, t < S.length → (stepAt S t).1 = false → stepAt S t = stepAt S' t) :
    ComputeMoments g W0 S = ComputeMoments g W0 S' :=
  moments_noninterference g W0 S S' hlen hpads hvals

/-- C4 (witness): the noninterference applied to a concrete pair of inputs
differing only in the value of a padded position. -/
theorem claim_C4_witness :
    ComputeMoments 2 0 [(false, [1, 2]), (true, [5, 7])]
      = ComputeMoments 2 0 [(false, [1, 2]), (true, [100])] :=
  claim_C4 2 0 [(false, [1, 2]), (true, [5, 7])] [(false, [1, 2]), (true, [100])]
    (by decide) (by decide) (by decide)

/-- C7: the normalization application computes
`(input - mean) / sqrt(variance + epsilon) * gamma + beta` where `gamma`
is the effective scale `1 + stored_gamma` (the square root being encoded
by `s * s = variance + epsilon`, `0 < s`, and the engine's inverse square
root returning `1 / s` there); and with exact casts the bfloat16 branch,
which computes the inverse square root after an up-cast to float32 and
casts the result back, yields the very same value. -/
theorem claim_C7 (eps : ℚ) (rsq toF32 fromF32 : ℚ → ℚ)
    (mean variance gamma beta x s : ℚ)
    (hs : s * s = variance + eps) (hspos : 0 < s)
    (hrsq : rsq (variance + eps) = 1 / s)
    (hto : ∀ z, toF32 z = z) (hfrom : ∀ z, fromF32 z = z) :
    ApplyGammaBeta gamma beta (Normalize eps rsq mean variance x)
        = (x - mean) / s * (1 + gamma) + beta
      ∧ NormalizeBf16 eps rsq toF32 fromF32 mean variance x
        = Normalize eps rsq mean variance x := by
  constructor
  · rw [Normalize, ApplyGammaBeta, hrsq]
    field_simp
  · rw [NormalizeBf16, Normalize, hto, hfrom]

/-- C7 (witness): the normalization formula evaluated at concrete
values. -/
theorem claim_C7_witness :
    ApplyGammaBeta 1 5 (Normalize 3 (fun z => 1 / 2) 2 1 4)
        = (4 - 2) / 2 * (1 + 1) + 5
      ∧ NormalizeBf16 3 (fun z => 1 / 2) (fun z => z) (fun z => z) 2 1 4
        = Normalize 3 (fun z => 1 / 2) 2 1 4 :=
  claim_C7 3 (fun z => 1 / 2) (fun z => z) (fun z => z) 2 1 1 5 4 2
    (by norm_num) (by norm_num) (by norm_num)
    (fun z => rfl) (fun z => rfl)

/-- C8: every configuration violating one of the constructor's checks --
`dim` not divisible by `min_group_size`; `dim >= num_groups` with `dim`
not divisible by `num_groups`; a positive `window_size` without
`cumulative`; or `window_size = 1` -- is rejected by the assertions that
`GroupNormLayer.__init__` runs at construction time, before any data is
processed. -/
theorem claim_C8 (p : GNConfig)
    (h : ¬ p.dim % p.min_group_size = 0
      ∨ (p.num_groups ≤ p.dim ∧ ¬ p.dim % p.num_groups = 0)
      ∨ (0 < p.window_size ∧ p.cumulative = false)
      ∨ p.window_size = 1) :
    initAsserts p = false := by
  rw [Bool.eq_false_iff]
  intro htrue
  simp only [initAsserts, Bool.and_eq_true, decide_eq_true_eq, Bool.or_eq_true,
    Bool.not_eq_true', decide_eq_false_iff_not, not_le, beq_iff_eq] at htrue
  obtain ⟨⟨⟨⟨hng, hmg⟩, hdvd⟩, hglt⟩, hwin⟩ := htrue
  rcases h with h | h | h | h
  · exact h hdvd
  · rcases hglt with hlt | hdg
    · omega
    · exact h.2 hdg
  · rcases hwin with hw0 | hcum
    · omega
    · exact Bool.noConfusion (h.2 ▸ hcum.1)
  · rcases hwin with hw0 | hcum
    · omega
    · omega

/-- C8 (witness): the constructor rejects `window_size = 1`. -/
theorem claim_C8_witness :
    initAsserts ⟨4, 2, 1, true, 1⟩ = false :=
  claim_C8 ⟨4, 2, 1, true, 1⟩ (Or.inr (Or.inr (Or.inr rfl)))

unseal Rat.inv Rat.mul Rat.add Rat.sub in
/-- C9 (counterexample): the configuration `dim = 0`, `num_groups = 1`,
`min_group_size = 1` passes every constructor assertion, yet the
`group_size` property fails its own `min_group_size <= dim` assertion
instead of returning `max(dim // num_groups, min_group_size)`. -/
theorem claim_C9_counterexample :
    initAsserts ⟨0, 1, 1, false, 0⟩ = true
      ∧ group_size ⟨0, 1, 1, false, 0⟩ = none
      ∧ group_size ⟨0, 1, 1, false, 0⟩ ≠ some (max (0 / 1) 1) := by
  decide

/-- C9 (amended): for every configuration accepted at construction whose
`dim` is positive, the `group_size` property succeeds and returns
`max(dim // num_groups, min_group_size)`, this group size and
`min_group_size` both divide `dim`, and the feature dimension is
partitioned into exactly `dim // group_size` whole groups. -/
theorem claim_C9 (p : GNConfig) (hok : initAsserts p = true) (hdim : 0 < p.dim) :
    group_size p = some (max (p.dim / p.num_groups) p.min_group_size)
      ∧ p.dim % (max (p.dim / p.num_groups) p.min_group_size) = 0
      ∧ p.dim % p.min_group_size = 0
      ∧ (max (p.dim / p.num_groups) p.min_group_size)
          * (p.dim / (max (p.dim / p.num_groups) p.min_group_size)) = p.dim := by
  simp only [initAsserts, Bool.and_eq_true, decide_eq_true_eq, Bool.or_eq_true,
    Bool.not_eq_true', decide_eq_false_iff_not, not_le, beq_iff_eq] at hok
  obtain ⟨⟨⟨⟨hng, hmg⟩, hdvd⟩, hglt⟩, hwin⟩ := hok
  have hmgdvd : p.min_group_size ∣ p.dim := Nat.dvd_of_mod_eq_zero hdvd
  have hmgle : p.min_group_size ≤ p.dim := Nat.le_of_dvd hdim hmgdvd
  have hgs : p.dim % (max (p.dim / p.num_groups) p.min_group_size) = 0 := by
    rcases le_total (p.dim / p.num_groups) p.min_group_size with hle | hle
    · rw [max_eq_right hle]
      exact hdvd
    · rw [max_eq_left hle]
      rcases hglt with hlt | hdg
      · have : p.dim / p.num_groups = 0 := Nat.div_eq_of_lt hlt
        omega
      · have hngdvd : p.num_groups ∣ p.dim := Nat.dvd_of_mod_eq_zero hdg
        have hdd : (p.dim / p.num_groups) ∣ p.dim := Nat.div_dvd_of_dvd hngdvd
        set k := p.dim / p.num_groups with hk
        obtain ⟨c, hc⟩ := hdd
        rw [hc]
        exact Nat.mul_mod_right k c
  refine ⟨?_, hgs, hdvd, ?_⟩
  · rw [group_size, if_pos hmgle]
  · exact Nat.mul_div_cancel' (Nat.dvd_of_mod_eq_zero hgs)

/-- C9 (witness): the amended statement at a concrete accepted
configuration. -/
theorem claim_C9_witness :
    group_size ⟨4, 2, 1, true, 0⟩ = some (max (4 / 2) 1)
      ∧ 4 % (max (4 / 2) 1) = 0 ∧ 4 % 1 = 0
      ∧ (max (4 / 2) 1) * (4 / (max (4 / 2) 1)) = 4 :=
  claim_C9 ⟨4, 2, 1, true, 0⟩ (by decide) (by decide)

end BnLayers
